import Mathlib

/-!
Verification development for the g-win G-code analyzer.

This file gives a shallow embedding of the repository's core data model
(`Microns`, `Command`, `GCodeModel`) and of the stateful traversal engine
(`Cursor` in `src/analyzer.rs`), together with theorems settling the
specification claims.  Machine integers are embedded as `Int` with explicit
saturation at the `i32` bounds; Rust panics (out-of-bounds indexing,
`unwrap`) are embedded as `Option.none`; loops are embedded as fuelled
recursions, with the fuel made explicit so that non-termination of a source
loop is expressible as "no fuel suffices".
-/

/-- Lower bound of `i32`, `-2^31`. -/
def i32Min : Int := -2147483648

/-- Upper bound of `i32`, `2^31 - 1`. -/
def i32Max : Int := 2147483647

/-- Saturate an integer into the `i32` range, as Rust's
`i32::saturating_add`/`saturating_sub` do with their exact result. -/
def i32Sat (n : Int) : Int :=
  if n < i32Min then i32Min else if i32Max < n then i32Max else n

/-- Embeds `Microns` from `src/microns.rs`: a fixed-point distance in integer
micrometers backed by an `i32` (`pub struct Microns(pub i32)`). -/
structure Microns where
  val : Int
deriving DecidableEq, Repr

/-- Embeds `Microns::ZERO`. -/
def Microns.ZERO : Microns := ⟨0⟩

/-- Embeds `Microns::MIN`, the `i32::MIN` sentinel used as "unset". -/
def Microns.MIN : Microns := ⟨i32Min⟩

/-- Embeds `impl Add for Microns`: `self.0.saturating_add(rhs.0)`. -/
def Microns.add (a b : Microns) : Microns := ⟨i32Sat (a.val + b.val)⟩

/-- Embeds `impl Sub for Microns`: `self.0.saturating_sub(rhs.0)`. -/
def Microns.sub (a b : Microns) : Microns := ⟨i32Sat (a.val - b.val)⟩

/-- Embeds `Microns::abs`: `self.0.abs()`.  On `i32::MIN` Rust's `i32::abs`
overflows; the release-mode two's-complement result is `i32::MIN` itself,
which is what this embedding returns on that (sentinel) input. -/
def Microns.abs (a : Microns) : Microns :=
  ⟨if a.val = i32Min then i32Min else a.val.natAbs⟩

/-- Strict order on `Microns` (derived `Ord`/`PartialOrd` compare the `i32`). -/
def Microns.lt (a b : Microns) : Bool := a.val < b.val

/-- Modelled from the spec: `impl From<f32> for Microns` is used by
`analyzer.rs` (`Microns::from(2.0)`) but its declaration is not under
`src/`; per the spec (§3) conversion from a floating value "multiplies by
1000 and truncates toward zero".  This takes the exact rational value of
the float literal. -/
def Microns.ofSpecFloat (q : Rat) : Microns :=
  ⟨i32Sat (if 1000 * q < 0 then Rat.ceil (1000 * q) else Rat.floor (1000 * q))⟩

/-- The 5-axis position vector `[Microns; 5]` (`x, y, z, e, f`). -/
structure State where
  x : Microns
  y : Microns
  z : Microns
  e : Microns
  f : Microns
deriving DecidableEq, Repr

/-- Embeds `[Microns::MIN; 5]`. -/
def State.min5 : State := ⟨Microns.MIN, Microns.MIN, Microns.MIN, Microns.MIN, Microns.MIN⟩

/-- Embeds `[Microns::ZERO; 5]`. -/
def State.zero5 : State := ⟨Microns.ZERO, Microns.ZERO, Microns.ZERO, Microns.ZERO, Microns.ZERO⟩

/-- The `Command` enum matched by `analyzer.rs` and `display.rs`: a linear
move with five optional `Microns` parameters, the four mode switches, a
home command, and a raw fallback. -/
inductive Command where
  | G1 (x y z e f : Option Microns)
  | G90
  | G91
  | M82
  | M83
  | Home (s : String)
  | Raw (s : String)
deriving DecidableEq, Repr

/-- A `GCodeLine`: command plus trailing comment text. -/
structure GCodeLine where
  command : Command
  comments : String
deriving DecidableEq, Repr

/-- Embeds `GCodeModel`: the ordered line sequence plus the two relative-mode
flags set by the parser (`gcode_parser` in `src/parsers.rs`). -/
structure GCodeModel where
  lines : List GCodeLine
  rel_xyz : Bool
  rel_e : Bool
deriving DecidableEq, Repr

/-- Embeds `CursorError` from `src/analyzer.rs`. -/
inductive CursorError where
  | StartOfFile
  | EndOfFile
deriving DecidableEq, Repr

/-- The `Cursor` of `src/analyzer.rs`: an index into the parent model's
lines, the current and previous absolute positions, and the cached current
command. -/
structure Cursor where
  parent : GCodeModel
  idx : Nat
  state : State
  prev : State
  currCommand : Command
deriving DecidableEq, Repr

/-- Embeds `is_extrusion(curr, prev)` from `src/analyzer.rs` lines 11-18: true iff
`curr[3] > 0` and one of the X/Y/Z components moved (saturating difference,
absolute value, compared with zero). -/
def isExtrusion (curr prev : State) : Bool :=
  if Microns.lt Microns.ZERO curr.e then
    Microns.lt Microns.ZERO ((curr.x.sub prev.x).abs) ||
    Microns.lt Microns.ZERO ((curr.y.sub prev.y).abs) ||
    Microns.lt Microns.ZERO ((curr.z.sub prev.z).abs)
  else false

/-- Embeds `Cursor::update`: reads the line at `idx` (the `.unwrap()` panic is
`none`), caches its command and folds it into the position: a `G1` sets
each present parameter and carries absent axes over, `Home` zeroes all five
axes, everything else leaves the position unchanged.  The model's
relative-mode flags are not consulted. -/
def Cursor.update (c : Cursor) : Option Cursor :=
  match c.parent.lines[c.idx]? with
  | none => none
  | some line =>
    some { c with
      currCommand := line.command
      state :=
        match line.command with
        | Command.G1 x y z e f =>
          { x := x.getD c.state.x
            y := y.getD c.state.y
            z := z.getD c.state.z
            e := e.getD c.state.e
            f := f.getD c.state.f }
        | Command.Home _ => State.zero5
        | _ => c.state }

/-- Embeds `impl From<&GCodeModel> for Cursor`: builds the cursor at index 0 with
`[Microns::MIN; 5]` state and previous, caching `parent.lines[0].command`
(an out-of-bounds panic on the empty model, embedded as `none`), then runs
`update`. -/
def Cursor.fromModel (m : GCodeModel) : Option Cursor :=
  match m.lines[0]? with
  | none => none
  | some line0 =>
    Cursor.update
      { parent := m, idx := 0, state := State.min5, prev := State.min5,
        currCommand := line0.command }

/-- Embeds `Cursor::next`: error (cursor untouched) at the last line, otherwise
snapshot the state into `prev`, advance the index and `update`, returning
the new position. -/
def Cursor.next (c : Cursor) : Option (Except CursorError State × Cursor) :=
  if c.idx = c.parent.lines.length - 1 then
    some (Except.error CursorError.EndOfFile, c)
  else
    match Cursor.update { c with idx := c.idx + 1, prev := c.state } with
    | none => none
    | some c' => some (Except.ok c'.state, c')

/-- Embeds `Cursor::prev`: error (cursor untouched) at index 0, otherwise snapshot
the state into `prev`, retreat the index and `update`, returning the new
current command. -/
def Cursor.prevMove (c : Cursor) : Option (Except CursorError Command × Cursor) :=
  if c.idx = 0 then
    some (Except.error CursorError.StartOfFile, c)
  else
    match Cursor.update { c with idx := c.idx - 1, prev := c.state } with
    | none => none
    | some c' => some (Except.ok c'.currCommand, c')

/-- One iteration of the `while child.idx < idx` loop body in
`Cursor::child_at`: `let _ = child.next();` keeps the mutation and ignores
the result. -/
def Cursor.stepNext (c : Cursor) : Option Cursor :=
  match c.next with
  | none => none
  | some (_, c') => some c'

/-- The `while child.idx < idx` loop of `Cursor::child_at`, with explicit
fuel; `none` means the fuel ran out before the loop exited (or a panic). -/
def childAtLoop : Nat → Nat → Cursor → Option Cursor
  | 0, target, c => if c.idx < target then none else some c
  | fuel + 1, target, c =>
    if c.idx < target then
      match c.stepNext with
      | none => none
      | some c' => childAtLoop fuel target c'
    else some c

/-- Embeds `Cursor::child_at(idx)`: a fresh cursor from the parent, advanced by
the loop above.  Only the parent model of the calling cursor is used. -/
def childAt (m : GCodeModel) (target : Nat) (fuel : Nat) : Option Cursor :=
  match Cursor.fromModel m with
  | none => none
  | some child => childAtLoop fuel target child

/-- Termination of `child_at`'s loop for a given model and target index:
some fuel makes it finish. -/
def ChildAtTerminates (m : GCodeModel) (target : Nat) : Prop :=
  ∃ fuel, (childAt m target fuel).isSome

/-!
## Exact model of IEEE-754 binary32 (`f32`)

`calc_slope`, the purge-line slope tolerance and `Microns::try_from` use
`f32`.  A binary32 value is embedded as an exact rational (every finite
`f32` is a rational), plus infinities and NaN; each arithmetic operation
rounds its exact rational result to the nearest representable value with
ties to even, as IEEE-754 prescribes.  Signed zero is collapsed to `0`,
which is observationally equal for every operation the source performs on
these values (they are compared, subtracted and passed through `abs`).
-/

/-- An `f32` value: an exact finite rational, an infinity, or NaN. -/
inductive F32 where
  | finite (q : Rat)
  | inf (neg : Bool)
  | nan
deriving DecidableEq, Repr

/-- Round a rational to the nearest integer, ties to even. -/
def rne (x : Rat) : Int :=
  let fl := Rat.floor x
  let r := x - (fl : Rat)
  if r < (1 : Rat) / 2 then fl
  else if (1 : Rat) / 2 < r then fl + 1
  else if fl % 2 = 0 then fl else fl + 1

/-- Walk the binary32 exponent grid upward from the subnormal floor until
the grid step covers `a`: returns the first pair `(g, 2 ^ (g + 24))` with
`a < 2 ^ (g + 24)`, starting from `g = -149`. -/
def findGrid : Nat → Int → Rat → Rat → Int × Rat
  | 0, g, p, _ => (g, p)
  | fuel + 1, g, p, a => if a < p then (g, p) else findGrid fuel (g + 1) (2 * p) a

/-- The spacing of the binary32 grid around a positive rational. -/
def gridUnit (a : Rat) : Rat :=
  (findGrid 300 (-149) ((1 : Rat) / 2 ^ 125) a).2 / (2 ^ 24 : Rat)

/-- Round a positive rational to the binary32 grid (nearest, ties to even),
overflowing to infinity at `2^128`. -/
def roundPos (a : Rat) : F32 :=
  if (2 ^ 128 : Rat) ≤ (rne (a / gridUnit a) : Rat) * gridUnit a then F32.inf false
  else F32.finite ((rne (a / gridUnit a) : Rat) * gridUnit a)

/-- Round an arbitrary rational to binary32, nearest ties to even. -/
def roundQ (q : Rat) : F32 :=
  if q = 0 then F32.finite 0
  else if 0 < q then roundPos q
  else
    match roundPos (-q) with
    | F32.inf _ => F32.inf true
    | F32.finite v => F32.finite (-v)
    | F32.nan => F32.nan

/-- Embeds `i32 as f32` (round to nearest, exact for small integers). -/
def F32.ofInt (n : Int) : F32 := roundQ (n : Rat)

/-- Embeds `f32::is_nan`. -/
def F32.isNaN : F32 → Bool
  | F32.nan => true
  | _ => false

/-- Embeds `f32` subtraction with IEEE rounding and special values. -/
def F32.sub : F32 → F32 → F32
  | F32.nan, _ => F32.nan
  | _, F32.nan => F32.nan
  | F32.inf s, F32.inf t => if s = t then F32.nan else F32.inf s
  | F32.inf s, F32.finite _ => F32.inf s
  | F32.finite _, F32.inf t => F32.inf (!t)
  | F32.finite a, F32.finite b => roundQ (a - b)

/-- Embeds `f32` multiplication with IEEE rounding and special values. -/
def F32.mul : F32 → F32 → F32
  | F32.nan, _ => F32.nan
  | _, F32.nan => F32.nan
  | F32.inf s, F32.inf t => F32.inf (xor s t)
  | F32.inf s, F32.finite b =>
    if b = 0 then F32.nan else F32.inf (xor s (decide (b < 0)))
  | F32.finite a, F32.inf t =>
    if a = 0 then F32.nan else F32.inf (xor t (decide (a < 0)))
  | F32.finite a, F32.finite b => roundQ (a * b)

/-- Embeds `f32` division with IEEE rounding and special values (the zero divisor
is the model's `+0.0`, the only zero it has). -/
def F32.div : F32 → F32 → F32
  | F32.nan, _ => F32.nan
  | _, F32.nan => F32.nan
  | F32.inf _, F32.inf _ => F32.nan
  | F32.inf s, F32.finite b => F32.inf (xor s (decide (b < 0)))
  | F32.finite _, F32.inf _ => F32.finite 0
  | F32.finite a, F32.finite b =>
    if b = 0 then (if a = 0 then F32.nan else F32.inf (decide (a < 0)))
    else roundQ (a / b)

/-- Embeds `f32::abs`. -/
def F32.abs : F32 → F32
  | F32.nan => F32.nan
  | F32.inf _ => F32.inf false
  | F32.finite a => F32.finite |a|

/-- The strict `>` comparison on `f32`; false whenever NaN is involved. -/
def F32.gt : F32 → F32 → Bool
  | F32.nan, _ => false
  | _, F32.nan => false
  | F32.inf s, F32.inf t => !s && t
  | F32.inf s, F32.finite _ => !s
  | F32.finite _, F32.inf t => t
  | F32.finite a, F32.finite b => decide (b < a)

/-- Truncate a rational toward zero. -/
def ratTrunc (a : Rat) : Int := if a < 0 then Rat.ceil a else Rat.floor a

/-- Embeds `f32::trunc`, truncation toward zero. -/
def F32.trunc : F32 → F32
  | F32.nan => F32.nan
  | F32.inf s => F32.inf s
  | F32.finite a => F32.finite (ratTrunc a)

/-- Embeds `f32 as i32`: truncate toward zero then saturate to the `i32` range;
NaN casts to 0. -/
def F32.toI32 : F32 → Int
  | F32.nan => 0
  | F32.inf s => if s then i32Min else i32Max
  | F32.finite a => i32Sat (ratTrunc a)

/-- Embeds `f32::EPSILON`, exactly `2^-23`. -/
def f32Epsilon : F32 := F32.finite (1 / 8388608)

/-- Embeds `impl From<Microns> for f32`: `m.0 as f32 / 1000.0`. -/
def micronsToF32 (m : Microns) : F32 := F32.div (F32.ofInt m.val) (F32.finite 1000)

/-- Embeds `impl TryFrom<f32> for Microns` (`src/microns.rs` lines 16-25): NaN is
an error, otherwise `(f * 1000.0).trunc() as i32`. -/
def micronsTryFrom (f : F32) : Except String Microns :=
  if f.isNaN then Except.error "NaN"
  else Except.ok ⟨(F32.mul f (F32.finite 1000)).trunc.toI32⟩

/-- Embeds `calc_slope(a, b)` from `src/analyzer.rs` lines 6-10:
`f32::from(b[1] - a[1]) / f32::from(b[0] - a[0])`. -/
def calcSlope (a b : State) : F32 :=
  micronsToF32 (b.y.sub a.y) |> fun dy => F32.div dy (micronsToF32 (b.x.sub a.x))

/-- The margin constant `Microns::from(2.0)` of `is_purge_line` (2 mm),
written as its literal micron value; `purgeMargin_spec` proves it equal to
the spec-modelled float conversion applied to 2.0. -/
def purgeMargin : Microns := ⟨2000⟩

/-- The inner `while` loop of `Cursor::next_shape` (`src/analyzer.rs` lines
123-128): while the classification of `(state, prev)` differs from the
initial classification and `next()` succeeds, record `end = idx` and
`prev = state`.  Returns the final `end` and cursor. -/
def nextShapeLoop : Nat → Bool → State → Nat → Cursor → Option (Nat × Cursor)
  | 0, _, _, _, _ => none
  | fuel + 1, initState, prevLocal, endIdx, c =>
    if initState != isExtrusion c.state prevLocal then
      match c.next with
      | none => none
      | some (Except.error _, c') => some (endIdx, c')
      | some (Except.ok _, c') => nextShapeLoop fuel initState c'.state c'.idx c'
    else some (endIdx, c)

/-- Embeds `Cursor::next_shape`: early return at the last line; otherwise run the
loop above starting from `is_extrusion(state, prev)` and `prev = state`,
then step back once unless at the last line.  Ranges are inclusive
`(start, end)` pairs. -/
def Cursor.nextShape (c : Cursor) (fuel : Nat) : Option ((Nat × Nat) × Cursor) :=
  let start := c.idx
  if c.idx = c.parent.lines.length - 1 then some ((start, c.idx), c)
  else
    match nextShapeLoop fuel (isExtrusion c.state c.prev) c.state c.idx c with
    | none => none
    | some (endIdx, c1) =>
      if c1.idx ≠ c1.parent.lines.length - 1 then
        match c1.prevMove with
        | none => none
        | some (_, c2) => some ((start, endIdx), c2)
      else some ((start, endIdx), c1)

/-- Embeds `Cursor::reset`: jump to index 0 and `update` (the position state is
not cleared, exactly as in the source). -/
def Cursor.reset (c : Cursor) : Option Cursor := Cursor.update { c with idx := 0 }

/-- The `while self.idx < len - 1` loop of `Cursor::shapes`, accumulating
`next_shape` ranges; the outer fuel bounds the number of loop iterations
(each `next_shape` call gets the always-sufficient fuel `lines.length`). -/
def shapesLoop : Nat → Cursor → List (Nat × Nat) → Option (List (Nat × Nat) × Cursor)
  | 0, _, _ => none
  | fuel + 1, c, acc =>
    if c.idx < c.parent.lines.length - 1 then
      match c.nextShape c.parent.lines.length with
      | none => none
      | some (r, c') => shapesLoop fuel c' (r :: acc)
    else some (acc.reverse, c)

/-- Embeds `Cursor::shapes`: reset to index 0, then collect `next_shape` ranges
while not at the last line. -/
def Cursor.shapes (c : Cursor) (fuel : Nat) : Option (List (Nat × Nat) × Cursor) :=
  match c.reset with
  | none => none
  | some c0 => shapesLoop fuel c0 []

/-- The backward scan of `Cursor::at_first_extrusion`: while `prev()`
succeeds, report false at the first `is_extrusion(curr, state)` hit. -/
def atFirstLoop : Nat → State → Cursor → Option Bool
  | 0, _, _ => none
  | fuel + 1, curr, c =>
    match c.prevMove with
    | none => none
    | some (Except.error _, _) => some true
    | some (Except.ok _, c') =>
      if isExtrusion curr c'.state then some false
      else atFirstLoop fuel curr c'

/-- Embeds `Cursor::at_first_extrusion` on a copy of the cursor; `idx + 1` fuel is
always sufficient because each successful `prev()` decreases the index. -/
def Cursor.atFirstExtrusion (c : Cursor) : Option Bool :=
  atFirstLoop (c.idx + 1) c.state c

/-- Outcome of the position-collecting walk in `is_purge_line`: either the
margin gate fired an early `false`, or the loop ran to the end of the file
and collected the recorded positions in order. -/
inductive PurgeWalkResult where
  | earlyFalse
  | positions (ps : List State)
deriving DecidableEq, Repr

/-- The `while cur.next().is_ok()` walk of `Cursor::is_purge_line`
(`src/analyzer.rs` lines 162-170): after each successful step, if
`is_extrusion(init, state)` the new position is recorded and the 2 mm
margin gate may return false; `init` then becomes the current state. -/
def purgeWalkLoop : Nat → Cursor → State → List State → Option PurgeWalkResult
  | 0, _, _, _ => none
  | fuel + 1, c, init, acc =>
    match c.next with
    | none => none
    | some (Except.error _, _) => some (PurgeWalkResult.positions acc.reverse)
    | some (Except.ok _, c') =>
      if isExtrusion init c'.state then
        if Microns.lt purgeMargin c'.state.x && Microns.lt purgeMargin c'.state.y then
          some PurgeWalkResult.earlyFalse
        else purgeWalkLoop fuel c' c'.state (c'.state :: acc)
      else purgeWalkLoop fuel c' c'.state acc

/-- The slope scan of `is_purge_line` (`src/analyzer.rs` lines 175-184):
`s` is the previous pair's absolute slope; each consecutive pair must stay
within `f32::EPSILON` of it. -/
def slopeChain : F32 → State → List State → Bool
  | _, _, [] => true
  | s, pPrev, p :: rest =>
    let si := (calcSlope pPrev p).abs
    if F32.gt ((F32.sub s si).abs) f32Epsilon then false
    else slopeChain si p rest

/-- The `shape_positions.len() > 2` collinearity gate of `is_purge_line`. -/
def slopeGate : List State → Bool
  | p0 :: p1 :: p2 :: rest => slopeChain ((calcSlope p0 p1).abs) p1 (p2 :: rest)
  | _ => true

/-- Embeds `Cursor::is_purge_line(lines)`: a child cursor at `lines.start()`, the
`at_first_extrusion` gate, the margin walk over the rest of the file, and
the collinearity gate.  Only the parent model of the calling cursor is
used, so the embedding takes the model directly.  `fuel` feeds the
`child_at` loop and the walk; the range's end is never read by the
source. -/
def isPurgeLine (m : GCodeModel) (start : Nat) (fuel : Nat) : Option Bool :=
  match childAt m start fuel with
  | none => none
  | some cur =>
    match cur.atFirstExtrusion with
    | none => none
    | some false => some false
    | some true =>
      match purgeWalkLoop fuel cur cur.state [] with
      | none => none
      | some PurgeWalkResult.earlyFalse => some false
      | some (PurgeWalkResult.positions ps) => some (slopeGate ps)

/-- Embeds `Cursor::nonplanar_extrusion(prev)`: the current command is a `G1`
carrying `e > 0` and the Z component moved against `prev`. -/
def nonplanarExtrusion (c : Cursor) (prevArg : State) : Bool :=
  let dz := c.state.z.sub prevArg.z
  match c.currCommand with
  | Command.G1 _ _ _ (some e) _ =>
    Microns.lt Microns.ZERO e && Microns.lt Microns.ZERO dz.abs
  | _ => false

/-- The `while self.next().is_ok()` loop of `Cursor::is_planar`. -/
def isPlanarLoop : Nat → Cursor → State → Option (Bool × Cursor)
  | 0, _, _ => none
  | fuel + 1, c, init =>
    match c.next with
    | none => none
    | some (Except.error _, c') => some (true, c')
    | some (Except.ok _, c') =>
      if nonplanarExtrusion c' init then some (false, c')
      else isPlanarLoop fuel c' c'.state

/-- Embeds `Cursor::is_planar`; `lines.length + 1` fuel is always sufficient
because each successful `next()` increases the index. -/
def Cursor.isPlanar (c : Cursor) : Option (Bool × Cursor) :=
  isPlanarLoop (c.parent.lines.length + 1) c c.state

/-- The height-collecting loop of `Cursor::layer_height`. -/
def layerHeightLoop : Nat → Cursor → State → List Microns → Option (List Microns × Cursor)
  | 0, _, _, _ => none
  | fuel + 1, c, init, acc =>
    match c.next with
    | none => none
    | some (Except.error _, c') => some (acc.reverse, c')
    | some (Except.ok _, c') =>
      layerHeightLoop fuel c' c'.state
        (if isExtrusion c'.state init then c'.state.z :: acc else acc)

/-- Embeds `Vec::dedup` (removes consecutive duplicates), head/tail form. -/
def dedupConsecAux : Microns → List Microns → List Microns
  | a, [] => [a]
  | a, b :: rest =>
    if a = b then dedupConsecAux a rest else a :: dedupConsecAux b rest

/-- Embeds `Vec::dedup`. -/
def dedupConsec : List Microns → List Microns
  | [] => []
  | a :: rest => dedupConsecAux a rest

/-- Ordered insert for the ascending sort below. -/
def insertAsc (a : Microns) : List Microns → List Microns
  | [] => [a]
  | b :: rest => if a.val ≤ b.val then a :: b :: rest else b :: insertAsc a rest

/-- Embeds `Vec::sort` ascending (stable); insertion sort is extensionally the
same ordering. -/
def sortAsc : List Microns → List Microns
  | [] => []
  | a :: rest => insertAsc a (sortAsc rest)

/-- The `for i in 3..heights.len()` uniformity check of `layer_height`:
every further consecutive delta must equal `second_layer_height`. -/
def layerUniform : Microns → List Microns → Microns → Bool
  | _, [], _ => true
  | prevH, h :: rest, target =>
    if h.sub prevH = target then layerUniform h rest target else false

/-- Embeds `Cursor::layer_height` (`src/analyzer.rs` lines 247-284): `init` is
snapshotted before `is_planar` runs (and `is_planar` moves the cursor);
then extrusion heights are collected, consecutively deduplicated and
sorted, and the first/second layer deltas derived. -/
def Cursor.layerHeight (c : Cursor) : Option ((Microns × Microns) × Cursor) :=
  let init := c.state
  match c.isPlanar with
  | none => none
  | some (false, c1) => some ((Microns.ZERO, Microns.ZERO), c1)
  | some (true, c1) =>
    match layerHeightLoop (c1.parent.lines.length + 1) c1 init [] with
    | none => none
    | some (collected, c2) =>
      let heights := sortAsc (dedupConsec collected)
      match heights with
      | [] => some ((Microns.ZERO, Microns.ZERO), c2)
      | [h0] => some ((h0, Microns.ZERO), c2)
      | h0 :: h1 :: rest =>
        let firstLayer := h1.sub h0
        match rest with
        | [] => some ((firstLayer, Microns.ZERO), c2)
        | h2 :: rest2 =>
          let secondLayer := h2.sub h1
          match rest2 with
          | [] => some ((firstLayer, secondLayer), c2)
          | _ =>
            if layerUniform h2 rest2 secondLayer then
              some ((firstLayer, secondLayer), c2)
            else some ((firstLayer, Microns.ZERO), c2)

/-- Embeds `Cursor::pre_print` (`src/analyzer.rs` lines 198-209): compute the
shape list; with no shapes, error; otherwise test the first shape with
`is_purge_line` and return `0..=(start - 1)` (saturating, which `Nat`
subtraction is) of the first or second shape; a purge first shape with no
second shape also errors. -/
def prePrint (c : Cursor) (fuel : Nat) : Option (Except String (Nat × Nat) × Cursor) :=
  match c.shapes fuel with
  | none => none
  | some (shapeList, c1) =>
    match shapeList with
    | [] => some (Except.error "No preprint found", c1)
    | first :: restShapes =>
      match isPurgeLine c1.parent first.1 fuel with
      | none => none
      | some purge =>
        if !purge then some (Except.ok (0, first.1 - 1), c1)
        else
          match restShapes with
          | second :: _ => some (Except.ok (0, second.1 - 1), c1)
          | [] => some (Except.error "No preprint found", c1)

/-!
## Specification-side definitions and concrete models
-/

/-- Decidable equality for `Except`, used to evaluate the embedded
operations on concrete inputs. -/
instance exceptDecEq {ε α : Type} [DecidableEq ε] [DecidableEq α] :
    DecidableEq (Except ε α) := fun a b =>
  match a, b with
  | Except.error e1, Except.error e2 =>
    if h : e1 = e2 then isTrue (by rw [h])
    else isFalse (by intro hc; cases hc; exact h rfl)
  | Except.error _, Except.ok _ => isFalse (by intro hc; cases hc)
  | Except.ok _, Except.error _ => isFalse (by intro hc; cases hc)
  | Except.ok v1, Except.ok v2 =>
    if h : v1 = v2 then isTrue (by rw [h])
    else isFalse (by intro hc; cases hc; exact h rfl)

/-- Well-formedness of a cursor: its index points at a line of its parent.
Every cursor the API produces satisfies this. -/
def Cursor.WF (c : Cursor) : Prop := c.idx < c.parent.lines.length

/-- The amended update semantics, following the code: each addressed axis
of a linear move takes the explicit parameter value (independently of the
relative-mode flags), unaddressed axes carry over, `Home` zeroes all axes,
and mode switches and raw commands leave the position unchanged. -/
def specUpdateState (s : State) : Command → State
  | Command.G1 x y z e f =>
    { x := x.getD s.x, y := y.getD s.y, z := z.getD s.z,
      e := e.getD s.e, f := f.getD s.f }
  | Command.Home _ => State.zero5
  | _ => s

/-- The original claim's semantics for an addressed axis under an active
relative mode: previous position plus parameter. -/
def claimRelAxis (prev param : Microns) : Microns := prev.add param

/-- Coordinates small enough that the saturating subtraction of any two of
them is exact and away from the `i32::MIN` overflow of `abs`. -/
def CoordSmall (m : Microns) : Prop := -1073741824 < m.val ∧ m.val < 1073741824

/-- Margin gate over a list of recorded positions: no position has both X
and Y beyond the 2 mm purge margin. -/
def marginAll (ps : List State) : Bool :=
  ps.all fun p => !(Microns.lt purgeMargin p.x && Microns.lt purgeMargin p.y)

/-- The positions the `is_purge_line` walk records, computed without the
early margin exit and without an accumulator: after each successful step,
the new state is recorded when `is_extrusion(init, state)` holds. -/
def walkPositions : Nat → Cursor → State → Option (List State)
  | 0, _, _ => none
  | fuel + 1, c, init =>
    match c.next with
    | none => none
    | some (Except.error _, _) => some []
    | some (Except.ok _, c') =>
      (walkPositions fuel c' c'.state).map fun rest =>
        if isExtrusion init c'.state then c'.state :: rest else rest

/-- Convenience constructor for a `G1` line with integer micron values. -/
def g1 (x y z e f : Option Int) : GCodeLine :=
  ⟨Command.G1 (x.map Microns.mk) (y.map Microns.mk) (z.map Microns.mk)
    (e.map Microns.mk) (f.map Microns.mk), ""⟩

/-- A placeholder cursor for `Option.getD`; never the result of a
successful computation in the statements below. -/
def dummyCursor : Cursor :=
  ⟨⟨[], false, false⟩, 0, State.min5, State.min5, Command.G90⟩

/-- Model with the parser in XYZ-relative mode (`G91` seen) and two
absolute-parameter `G1 X` moves: `G1 X5` then `G1 X1`. -/
def mC1 : GCodeModel :=
  ⟨[g1 (some 5000) none none none none, g1 (some 1000) none none none none], true, false⟩

/-- The nine-line program of the repository's own `shape_test`
(`src/analyzer.rs` lines 396-417): `G1 Z3 F900`, `G1 X0 Y-1`,
`G1 X50 Y-1 E25`, `G1 X25 E10`, `G1 E-1.5`, `G1 Z1`, `G1 X50 Y50`,
`G1 Z0.2 E1`, `G1 X50 Y100 E12.222`. -/
def mShape : GCodeModel := ⟨[
  g1 none none (some 3000) none (some 900000),
  g1 (some 0) (some (-1000)) none none none,
  g1 (some 50000) (some (-1000)) none (some 25000) none,
  g1 (some 25000) none none (some 10000) none,
  g1 none none none (some (-1500)) none,
  g1 none none (some 1000) none none,
  g1 (some 50000) (some 50000) none none none,
  g1 none none (some 200) (some 1000) none,
  g1 (some 50000) (some 100000) none (some 12222) none], false, true⟩

/-- The cursor `Cursor::from(&mShape)`. -/
def cShape : Cursor := (Cursor.fromModel mShape).getD dummyCursor

/-- The cursor after `cShape.reset()`, as `shapes()` first produces it. -/
def cShapeR : Cursor := cShape.reset.getD dummyCursor

/-- Planar model whose extrusion moves visit the arithmetic heights
0.2, 0.4, 0.6, 0.8 mm (Z changes on travel-only lines). -/
def mC4 : GCodeModel := ⟨[
  g1 none none (some 200) none none,
  g1 (some 1000) (some 1000) none (some 1000) none,
  g1 none none (some 400) none none,
  g1 (some 0) none none (some 2000) none,
  g1 none none (some 600) none none,
  g1 (some 1000) none none (some 3000) none,
  g1 none none (some 800) none none,
  g1 (some 0) none none (some 4000) none], false, true⟩

/-- Model whose single shape is a purge line: two short extrusion moves
near the origin. -/
def mC5 : GCodeModel :=
  ⟨[g1 (some 1000) (some 1000) none (some 1000) none,
    g1 (some 1500) (some 1500) none (some 2000) none], false, true⟩

/-- The cursor `Cursor::from(&mC5)`. -/
def cC5 : Cursor := (Cursor.fromModel mC5).getD dummyCursor

/-- The cursor state after `cC5.shapes(..)` has run. -/
def cC5s : Cursor := ((cC5.shapes 10).getD ([], dummyCursor)).2

/-- Three collinear extrusion moves on the diagonal, with the first point
at (3 mm, 3 mm), outside the 2 mm margin box, and the rest inside. -/
def mC6cex : GCodeModel :=
  ⟨[g1 (some 3000) (some 3000) none (some 1000) none,
    g1 (some 1000) (some 1000) none (some 2000) none,
    g1 (some 500) (some 500) none (some 3000) none], false, true⟩

/-- Three collinear extrusion moves fully inside the 2 mm margin box. -/
def mC6wit : GCodeModel :=
  ⟨[g1 (some 500) (some 500) none (some 1000) none,
    g1 (some 1000) (some 1000) none (some 2000) none,
    g1 (some 1500) (some 1500) none (some 3000) none], false, true⟩

/-- Four collinear extrusion moves fully inside the 2 mm margin box: three
recorded positions, so the f32 slope gate actually runs. -/
def mC6wit4 : GCodeModel :=
  ⟨[g1 (some 500) (some 500) none (some 1000) none,
    g1 (some 1000) (some 1000) none (some 2000) none,
    g1 (some 1500) (some 1500) none (some 3000) none,
    g1 (some 2000) (some 2000) none (some 4000) none], false, true⟩

/-- The child cursor at index 0 of `mC6wit`. -/
def cC6wit : Cursor := (childAt mC6wit 0 10).getD dummyCursor

/-- The recorded walk positions of `mC6wit`. -/
def psC6wit : List State := (walkPositions 10 cC6wit cC6wit.state).getD []

/-- The child cursor at index 0 of `mC6wit4`. -/
def cC6wit4 : Cursor := (childAt mC6wit4 0 10).getD dummyCursor

/-- The recorded walk positions of `mC6wit4`. -/
def psC6wit4 : List State := (walkPositions 10 cC6wit4 cC6wit4.state).getD []

/-- The first recorded position of the `mC6wit4` walk. -/
def sW1 : State := ⟨⟨1000⟩, ⟨1000⟩, Microns.MIN, ⟨2000⟩, Microns.MIN⟩

/-- The second recorded position of the `mC6wit4` walk. -/
def sW2 : State := ⟨⟨1500⟩, ⟨1500⟩, Microns.MIN, ⟨3000⟩, Microns.MIN⟩

/-- The third recorded position of the `mC6wit4` walk. -/
def sW3 : State := ⟨⟨2000⟩, ⟨2000⟩, Microns.MIN, ⟨4000⟩, Microns.MIN⟩

/-- Two-line model used to exercise the traversal boundaries. -/
def mC7 : GCodeModel :=
  ⟨[g1 (some 1000) none none none none, g1 (some 2000) none none none none], false, true⟩

/-- The cursor `Cursor::from(&mC7)` (at index 0). -/
def cC7 : Cursor := (Cursor.fromModel mC7).getD dummyCursor

/-- The `mC7` cursor advanced to the last index. -/
def cC7last : Cursor := (cC7.stepNext).getD dummyCursor

/-- One-line model; `child_at(1)` on it runs past the end forever. -/
def mC9 : GCodeModel := ⟨[g1 (some 1000) none none none none], false, true⟩

/-- The cursor `Cursor::from(&mC9)`. -/
def cC9 : Cursor := (Cursor.fromModel mC9).getD dummyCursor

/-!
## Helper lemmas
-/

theorem update_eq (c : Cursor) (line : GCodeLine)
    (h : c.parent.lines[c.idx]? = some line) :
    c.update = some { c with currCommand := line.command,
                             state := specUpdateState c.state line.command } := by
  obtain ⟨cmd, comm⟩ := line
  unfold Cursor.update
  rw [h]
  cases cmd <;> rfl

theorem update_of_wf (c : Cursor) (h : c.WF) :
    ∃ c', c.update = some c' ∧ c'.idx = c.idx ∧ c'.parent = c.parent ∧
      c'.prev = c.prev ∧ c'.WF := by
  obtain ⟨line, hline⟩ : ∃ line, c.parent.lines[c.idx]? = some line :=
    ⟨_, List.getElem?_eq_getElem h⟩
  refine ⟨_, update_eq c line hline, rfl, rfl, rfl, h⟩

theorem update_preserves (c c' : Cursor) (h : c.update = some c') :
    c'.idx = c.idx ∧ c'.parent = c.parent ∧ c'.prev = c.prev := by
  unfold Cursor.update at h
  cases hline : c.parent.lines[c.idx]? with
  | none => rw [hline] at h; cases h
  | some line =>
    rw [hline] at h
    cases h
    exact ⟨rfl, rfl, rfl⟩

theorem fromModel_spec (m : GCodeModel) (hm : m.lines ≠ []) :
    ∃ c, Cursor.fromModel m = some c ∧ c.idx = 0 ∧ c.parent = m ∧ c.WF := by
  have hlen : 0 < m.lines.length := List.length_pos.mpr hm
  obtain ⟨line0, hline⟩ : ∃ line0, m.lines[0]? = some line0 :=
    ⟨_, List.getElem?_eq_getElem hlen⟩
  unfold Cursor.fromModel
  rw [hline]
  obtain ⟨c, hc, hidx, hparent, _, hwf⟩ :=
    update_of_wf { parent := m, idx := 0, state := State.min5, prev := State.min5,
                   currCommand := line0.command } hlen
  exact ⟨c, hc, hidx, hparent, hwf⟩

theorem fromModel_preserves (m : GCodeModel) (c : Cursor)
    (h : Cursor.fromModel m = some c) : c.idx = 0 ∧ c.parent = m := by
  unfold Cursor.fromModel at h
  cases hline : m.lines[0]? with
  | none => rw [hline] at h; cases h
  | some line0 =>
    rw [hline] at h
    obtain ⟨hidx, hparent, _⟩ := update_preserves _ _ h
    exact ⟨hidx, hparent⟩

theorem next_wf (c : Cursor) (h : c.WF) :
    ∃ r c', c.next = some (r, c') ∧ c'.WF ∧ c'.parent = c.parent := by
  unfold Cursor.next
  by_cases hlast : c.idx = c.parent.lines.length - 1
  · rw [if_pos hlast]
    exact ⟨_, c, rfl, h, rfl⟩
  · rw [if_neg hlast]
    have hwf2 : ({ c with idx := c.idx + 1, prev := c.state } : Cursor).WF := by
      show c.idx + 1 < c.parent.lines.length
      unfold Cursor.WF at h
      omega
    obtain ⟨c', hc', hidx, hparent, _, hwf'⟩ := update_of_wf _ hwf2
    rw [hc']
    exact ⟨_, c', rfl, hwf', hparent⟩

theorem next_advances (c : Cursor) (h : c.WF)
    (hne : c.idx ≠ c.parent.lines.length - 1) :
    ∃ c', c.stepNext = some c' ∧ c'.idx = c.idx + 1 ∧ c'.parent = c.parent ∧ c'.WF := by
  unfold Cursor.stepNext Cursor.next
  rw [if_neg hne]
  have hwf2 : ({ c with idx := c.idx + 1, prev := c.state } : Cursor).WF := by
    show c.idx + 1 < c.parent.lines.length
    unfold Cursor.WF at h
    omega
  obtain ⟨c', hc', hidx, hparent, _, hwf'⟩ := update_of_wf _ hwf2
  rw [hc']
  exact ⟨c', rfl, hidx, hparent, hwf'⟩

theorem prevMove_wf (c : Cursor) (h : c.WF) :
    ∃ r c', c.prevMove = some (r, c') ∧ c'.WF ∧ c'.parent = c.parent := by
  unfold Cursor.prevMove
  by_cases h0 : c.idx = 0
  · rw [if_pos h0]
    exact ⟨_, c, rfl, h, rfl⟩
  · rw [if_neg h0]
    have hwf2 : ({ c with idx := c.idx - 1, prev := c.state } : Cursor).WF := by
      show c.idx - 1 < c.parent.lines.length
      unfold Cursor.WF at h
      omega
    obtain ⟨c', hc', hidx, hparent, _, hwf'⟩ := update_of_wf _ hwf2
    rw [hc']
    exact ⟨_, c', rfl, hwf', hparent⟩

theorem shapesLoop_fixed (c : Cursor) (r : Nat × Nat)
    (hstep : c.nextShape c.parent.lines.length = some (r, c))
    (hlt : c.idx < c.parent.lines.length - 1) :
    ∀ fuel acc, shapesLoop fuel c acc = none := by
  intro fuel
  induction fuel with
  | zero => intro acc; rfl
  | succ n ih =>
    intro acc
    unfold shapesLoop
    rw [if_pos hlt, hstep]
    exact ih _

theorem childAtLoop_fixed (c : Cursor) (target : Nat)
    (hidx : c.idx < target) (hstep : c.stepNext = some c) :
    ∀ fuel, childAtLoop fuel target c = none := by
  intro fuel
  induction fuel with
  | zero => unfold childAtLoop; rw [if_pos hidx]
  | succ n ih =>
    unfold childAtLoop
    rw [if_pos hidx, hstep]
    exact ih

theorem childAtLoop_reaches (target : Nat) :
    ∀ (fuel : Nat) (c : Cursor), c.WF → c.idx ≤ target →
      target < c.parent.lines.length → target - c.idx ≤ fuel →
      ∃ c', childAtLoop fuel target c = some c' ∧ c'.idx = target ∧
        c'.parent = c.parent ∧ c'.WF := by
  intro fuel
  induction fuel with
  | zero =>
    intro c hwf hle hlt hfuel
    have hidx : c.idx = target := by omega
    unfold childAtLoop
    rw [if_neg (by omega)]
    exact ⟨c, rfl, hidx, rfl, hwf⟩
  | succ n ih =>
    intro c hwf hle hlt hfuel
    by_cases hc : c.idx < target
    · have hne : c.idx ≠ c.parent.lines.length - 1 := by
        unfold Cursor.WF at hwf
        omega
      obtain ⟨c', hstep, hidx, hparent, hwf'⟩ := next_advances c hwf hne
      unfold childAtLoop
      rw [if_pos hc, hstep]
      obtain ⟨c'', hloop, hidx'', hparent'', hwf''⟩ :=
        ih c' hwf' (by omega) (by rw [hparent]; exact hlt) (by omega)
      exact ⟨c'', hloop, hidx'', by rw [hparent'', hparent], hwf''⟩
    · have hidx : c.idx = target := by omega
      unfold childAtLoop
      rw [if_neg hc]
      exact ⟨c, rfl, hidx, rfl, hwf⟩

theorem childAtLoop_zero_target (fuel : Nat) (c : Cursor) :
    childAtLoop fuel 0 c = some c := by
  cases fuel <;> (unfold childAtLoop; rw [if_neg (Nat.not_lt_zero _)])

theorem childAt_zero (m : GCodeModel) (fuel : Nat) :
    childAt m 0 fuel = Cursor.fromModel m := by
  unfold childAt
  cases h : Cursor.fromModel m with
  | none => rfl
  | some c => exact childAtLoop_zero_target fuel c

theorem atFirst_at_idx_zero (c : Cursor) (h : c.idx = 0) :
    c.atFirstExtrusion = some true := by
  unfold Cursor.atFirstExtrusion
  rw [h]
  unfold atFirstLoop Cursor.prevMove
  rw [if_pos h]

theorem purgeMargin_spec : purgeMargin = Microns.ofSpecFloat 2 := by
  unfold purgeMargin Microns.ofSpecFloat
  rw [if_neg (by norm_num)]
  rw [show (1000 * (2 : Rat)) = ((2000 : Int) : Rat) by norm_num]
  rw [show Rat.floor (((2000 : Int) : Rat)) = (2000 : Int) from rfl]
  unfold i32Sat i32Min i32Max
  norm_num

theorem marginAll_cons (p : State) (l : List State) :
    marginAll (p :: l) =
      (!(Microns.lt purgeMargin p.x && Microns.lt purgeMargin p.y) && marginAll l) := rfl

theorem purgeWalkLoop_eq (fuel : Nat) :
    ∀ (c : Cursor) (init : State) (acc ps : List State),
      walkPositions fuel c init = some ps →
      purgeWalkLoop fuel c init acc =
        some (if marginAll ps then PurgeWalkResult.positions (acc.reverse ++ ps)
              else PurgeWalkResult.earlyFalse) := by
  induction fuel with
  | zero =>
    intro c init acc ps h
    cases h
  | succ n ih =>
    intro c init acc ps h
    unfold walkPositions at h
    cases hnext : c.next with
    | none => rw [hnext] at h; cases h
    | some rc =>
      obtain ⟨r, c'⟩ := rc
      rw [hnext] at h
      cases r with
      | error e =>
        cases h
        simp [purgeWalkLoop, hnext, marginAll]
      | ok st =>
        simp only [purgeWalkLoop, hnext]
        obtain ⟨rest, hrest, hps⟩ := Option.map_eq_some'.mp h
        by_cases hext : isExtrusion init c'.state = true
        · rw [if_pos hext] at hps
          subst hps
          rw [if_pos hext]
          cases hbad : (Microns.lt purgeMargin c'.state.x && Microns.lt purgeMargin c'.state.y) with
          | true =>
            have hm : marginAll (c'.state :: rest) = false := by
              rw [marginAll_cons, hbad]
              simp
            rw [hm]
            simp
          | false =>
            have hm : marginAll (c'.state :: rest) = marginAll rest := by
              rw [marginAll_cons, hbad]
              simp
            rw [hm]
            simp only [Bool.false_eq_true, if_false]
            rw [ih c' c'.state (c'.state :: acc) rest hrest]
            cases hmr : marginAll rest <;>
              simp [List.reverse_cons, List.append_assoc]
        · rw [if_neg hext] at hps
          subst hps
          rw [if_neg hext]
          exact ih c' c'.state acc rest hrest

theorem rne_int (n : Int) : rne (n : Rat) = n := by
  unfold rne
  rw [show Rat.floor ((n : Rat)) = n from rfl]
  norm_num

theorem findGrid_spec : ∀ (fuel : Nat) (g : Int) (a : Rat),
    a < (2 : Rat) ^ (g + (fuel : Int) + 24) →
    ∃ g' : Int, findGrid fuel g ((2 : Rat) ^ (g + 24)) a = (g', (2 : Rat) ^ (g' + 24)) ∧
      a < (2 : Rat) ^ (g' + 24) ∧ (g' = g ∨ (2 : Rat) ^ (g' + 23) ≤ a) ∧ g ≤ g' := by
  intro fuel
  induction fuel with
  | zero =>
    intro g a h
    refine ⟨g, rfl, ?_, Or.inl rfl, le_refl g⟩
    simpa using h
  | succ n ih =>
    intro g a h
    unfold findGrid
    by_cases hap : a < (2 : Rat) ^ (g + 24)
    · rw [if_pos hap]
      exact ⟨g, rfl, hap, Or.inl rfl, le_refl g⟩
    · rw [if_neg hap]
      have h2 : 2 * (2 : Rat) ^ (g + 24) = (2 : Rat) ^ (g + 1 + 24) := by
        rw [show g + 1 + 24 = (g + 24) + 1 by ring, zpow_add_one₀ (two_ne_zero)]
        ring
      rw [h2]
      obtain ⟨g', heq, hlt, hor, hge⟩ := ih (g + 1) a (by
        rw [show g + 1 + (n : Int) + 24 = g + ((n : Int) + 1) + 24 by ring]
        rw [show ((n : Int) + 1) = ((n + 1 : Nat) : Int) by push_cast; ring]
        exact h)
      refine ⟨g', heq, hlt, ?_, by omega⟩
      rcases hor with h' | h'
      · right
        subst h'
        rw [show g + 1 + 23 = g + 24 by ring]
        exact le_of_not_lt hap
      · exact Or.inr h'

theorem roundPos_int_exact (n : Int) (h1 : 1 ≤ n) (h2 : n < 16777216) :
    roundPos (n : Rat) = F32.finite (n : Rat) := by
  have hstart : ((1 : Rat) / 2 ^ 125) = (2 : Rat) ^ ((-149 : Int) + 24) := by
    rw [show ((-149 : Int) + 24) = (-125 : Int) by norm_num]
    rw [show ((-125 : Int)) = -((125 : Nat) : Int) by norm_num]
    rw [zpow_neg, zpow_natCast]
    norm_num
  have hbound : (n : Rat) < (2 : Rat) ^ ((-149 : Int) + (300 : Nat) + 24) := by
    rw [show ((-149 : Int) + (300 : Nat) + 24) = ((175 : Nat) : Int) by norm_num]
    rw [zpow_natCast]
    calc (n : Rat) < ((16777216 : Int) : Rat) := by exact_mod_cast h2
    _ ≤ (2 : Rat) ^ (175 : Nat) := by norm_num
  obtain ⟨g', heq, hlt, hor, hge⟩ := findGrid_spec 300 (-149) (n : Rat) hbound
  have hu : gridUnit (n : Rat) = (2 : Rat) ^ g' := by
    unfold gridUnit
    rw [hstart, heq]
    show (2 : Rat) ^ (g' + 24) / (2 ^ 24 : Rat) = (2 : Rat) ^ g'
    rw [zpow_add₀ two_ne_zero]
    rw [show ((2 : Rat) ^ (24 : Int)) = ((2 ^ 24 : Nat) : Rat) by norm_num]
    field_simp
  have hg0 : g' ≤ 0 := by
    rcases hor with h' | h'
    · omega
    · by_contra hcon
      push_neg at hcon
      have h24 : (2 : Rat) ^ ((24 : Nat) : Int) ≤ (2 : Rat) ^ (g' + 23) :=
        (zpow_le_zpow_iff_right₀ (by norm_num)).mpr (by omega)
      have hle : (2 : Rat) ^ ((24 : Nat) : Int) ≤ (n : Rat) := le_trans h24 h'
      rw [zpow_natCast] at hle
      have hge16 : ((16777216 : Int) : Rat) ≤ (n : Rat) := by
        calc ((16777216 : Int) : Rat) = (2 : Rat) ^ (24 : Nat) := by norm_num
        _ ≤ (n : Rat) := hle
      exact absurd (by exact_mod_cast hge16) (by omega)
  obtain ⟨k, hgk⟩ : ∃ k : Nat, g' = -(k : Int) := ⟨(-g').toNat, by omega⟩
  have h2g : (2 : Rat) ^ g' = ((2 ^ k : Nat) : Rat)⁻¹ := by
    rw [hgk, zpow_neg, zpow_natCast]
    norm_cast
  have hdiv : (n : Rat) / (2 : Rat) ^ g' = ((n * (2 ^ k : Int) : Int) : Rat) := by
    rw [h2g, div_inv_eq_mul]
    push_cast
    ring
  have hv : ((rne ((n : Rat) / gridUnit (n : Rat)) : Int) : Rat) * gridUnit (n : Rat) = (n : Rat) := by
    rw [hu, hdiv, rne_int, h2g]
    push_cast
    rw [mul_assoc, mul_inv_cancel₀ (by positivity), mul_one]
  unfold roundPos
  rw [hv]
  rw [if_neg]
  push_neg
  calc (n : Rat) < ((16777216 : Int) : Rat) := by exact_mod_cast h2
  _ ≤ (2 : Rat) ^ (128 : Nat) := by norm_num

theorem roundQ_int_exact (n : Int) (h : n.natAbs < 16777216) :
    roundQ (n : Rat) = F32.finite (n : Rat) := by
  unfold roundQ
  by_cases h0 : n = 0
  · subst h0
    norm_num
  · rw [if_neg (by exact_mod_cast h0)]
    by_cases hpos : 0 < n
    · rw [if_pos (by exact_mod_cast hpos)]
      exact roundPos_int_exact n (by omega) (by omega)
    · rw [if_neg (by push_neg; exact_mod_cast (by omega : n ≤ 0))]
      have hneg : -(n : Rat) = ((-n : Int) : Rat) := by push_cast; ring
      rw [hneg, roundPos_int_exact (-n) (by omega) (by omega)]
      have hc : (((-n : Int) : Rat)) = -(n : Rat) := by push_cast; ring
      rw [hc]
      show F32.finite (-(-(n : Rat))) = F32.finite (n : Rat)
      rw [neg_neg]

theorem ratTrunc_int (m : Int) : ratTrunc ((m : Int) : Rat) = m := by
  unfold ratTrunc
  by_cases hm : ((m : Int) : Rat) < 0
  · rw [if_pos hm]
    rfl
  · rw [if_neg hm]
    rfl

theorem tryFrom_ofInt_exact (k : Int) (h : k.natAbs ≤ 16777) :
    micronsTryFrom (F32.ofInt k) = Except.ok ⟨1000 * k⟩ := by
  have h1 : F32.ofInt k = F32.finite (k : Rat) := roundQ_int_exact k (by omega)
  rw [h1]
  unfold micronsTryFrom
  rw [show F32.isNaN (F32.finite (k : Rat)) = false from rfl]
  simp only [Bool.false_eq_true, if_false]
  have hmul : F32.mul (F32.finite (k : Rat)) (F32.finite 1000) = F32.finite ((1000 * k : Int) : Rat) := by
    show roundQ ((k : Rat) * 1000) = _
    rw [show ((k : Rat) * 1000) = ((1000 * k : Int) : Rat) by push_cast; ring]
    exact roundQ_int_exact (1000 * k) (by
      have : (1000 * k).natAbs = 1000 * k.natAbs := by
        rw [Int.natAbs_mul]
        norm_num
      omega)
  rw [hmul]
  have htr : F32.trunc (F32.finite ((1000 * k : Int) : Rat)) = F32.finite ((1000 * k : Int) : Rat) := by
    show F32.finite ((ratTrunc ((1000 * k : Int) : Rat) : Int) : Rat) = _
    rw [ratTrunc_int]
  rw [htr]
  have hcast : F32.toI32 (F32.finite ((1000 * k : Int) : Rat)) = 1000 * k := by
    show i32Sat (ratTrunc ((1000 * k : Int) : Rat)) = 1000 * k
    rw [ratTrunc_int]
    unfold i32Sat
    rw [if_neg, if_neg]
    · unfold i32Max
      have : (1000 * k).natAbs = 1000 * k.natAbs := by
        rw [Int.natAbs_mul]
        norm_num
      omega
    · unfold i32Min
      have : (1000 * k).natAbs = 1000 * k.natAbs := by
        rw [Int.natAbs_mul]
        norm_num
      omega
  rw [hcast]

theorem roundPos_dyadic_exact (m : Int) (e : Int) (_h1 : 1 ≤ m) (h2 : m < 16777216)
    (he : -149 ≤ e) (hv : (m : Rat) * (2 : Rat) ^ e < (2 : Rat) ^ (128 : Nat)) :
    roundPos ((m : Rat) * (2 : Rat) ^ e) = F32.finite ((m : Rat) * (2 : Rat) ^ e) := by
  have hstart : ((1 : Rat) / 2 ^ 125) = (2 : Rat) ^ ((-149 : Int) + 24) := by
    rw [show ((-149 : Int) + 24) = (-125 : Int) by norm_num]
    rw [show ((-125 : Int)) = -((125 : Nat) : Int) by norm_num]
    rw [zpow_neg, zpow_natCast]
    norm_num
  have hbound : (m : Rat) * (2 : Rat) ^ e < (2 : Rat) ^ ((-149 : Int) + (300 : Nat) + 24) := by
    calc (m : Rat) * (2 : Rat) ^ e < (2 : Rat) ^ (128 : Nat) := hv
    _ ≤ (2 : Rat) ^ ((-149 : Int) + (300 : Nat) + 24) := by
      rw [show ((-149 : Int) + (300 : Nat) + 24) = ((175 : Nat) : Int) by norm_num]
      rw [zpow_natCast]
      norm_num
  obtain ⟨g', heq, hlt, hor, hge⟩ := findGrid_spec 300 (-149) ((m : Rat) * (2 : Rat) ^ e) hbound
  have hu : gridUnit ((m : Rat) * (2 : Rat) ^ e) = (2 : Rat) ^ g' := by
    unfold gridUnit
    rw [hstart, heq]
    show (2 : Rat) ^ (g' + 24) / (2 ^ 24 : Rat) = (2 : Rat) ^ g'
    rw [zpow_add₀ two_ne_zero]
    rw [show ((2 : Rat) ^ (24 : Int)) = ((2 ^ 24 : Nat) : Rat) by norm_num]
    field_simp
  have hge' : g' ≤ e := by
    rcases hor with h' | h'
    · omega
    · by_contra hcon
      push_neg at hcon
      have hup : (m : Rat) * (2 : Rat) ^ e < (2 : Rat) ^ (e + 24) := by
        rw [show e + 24 = (24 : Int) + e by ring, zpow_add₀ two_ne_zero]
        have hm24 : (m : Rat) < (2 : Rat) ^ ((24 : Nat) : Int) := by
          rw [zpow_natCast]
          calc (m : Rat) < ((16777216 : Int) : Rat) := by exact_mod_cast h2
          _ ≤ (2 : Rat) ^ (24 : Nat) := by norm_num
        have h2e : (0 : Rat) < (2 : Rat) ^ e := by positivity
        calc (m : Rat) * (2 : Rat) ^ e < (2 : Rat) ^ ((24 : Nat) : Int) * (2 : Rat) ^ e :=
          (mul_lt_mul_right h2e).mpr hm24
        _ = (2 : Rat) ^ (24 : Int) * (2 : Rat) ^ e := by norm_num
      have hchain : (2 : Rat) ^ (g' + 23) < (2 : Rat) ^ (e + 24) := lt_of_le_of_lt h' hup
      have := (zpow_lt_zpow_iff_right₀ (by norm_num : (1 : Rat) < 2)).mp hchain
      omega
  obtain ⟨j, hj⟩ : ∃ j : Nat, e - g' = (j : Int) := ⟨(e - g').toNat, by omega⟩
  have hsplit : (2 : Rat) ^ e = (2 : Rat) ^ (g' + (j : Int)) := by
    rw [show g' + (j : Int) = e by omega]
  have hdiv : ((m : Rat) * (2 : Rat) ^ e) / (2 : Rat) ^ g' = ((m * (2 ^ j : Int) : Int) : Rat) := by
    rw [hsplit, zpow_add₀ two_ne_zero]
    rw [show (2 : Rat) ^ ((j : Nat) : Int) = ((2 ^ j : Nat) : Rat) by
      rw [zpow_natCast]; norm_cast]
    push_cast
    have hne : ((2 : Rat) ^ g') ≠ 0 := by positivity
    field_simp
    ring
  have hvv : ((rne (((m : Rat) * (2 : Rat) ^ e) / gridUnit ((m : Rat) * (2 : Rat) ^ e)) : Int) : Rat) *
      gridUnit ((m : Rat) * (2 : Rat) ^ e) = (m : Rat) * (2 : Rat) ^ e := by
    rw [hu, hdiv, rne_int]
    rw [hsplit, zpow_add₀ two_ne_zero]
    rw [show (2 : Rat) ^ ((j : Nat) : Int) = ((2 ^ j : Nat) : Rat) by
      rw [zpow_natCast]; norm_cast]
    push_cast
    ring
  unfold roundPos
  rw [hvv, if_neg (not_le.mpr hv)]

theorem roundQ_dyadic_exact (q : Rat) (m : Int) (e : Int) (hq : q = (m : Rat) * (2 : Rat) ^ e)
    (h0 : m ≠ 0) (h2 : m.natAbs < 16777216) (he : -149 ≤ e)
    (hv : |q| < (2 : Rat) ^ (128 : Nat)) :
    roundQ q = F32.finite q := by
  subst hq
  have h2e : (0 : Rat) < (2 : Rat) ^ e := by positivity
  by_cases hpos : 0 < m
  · have hqpos : (0 : Rat) < (m : Rat) * (2 : Rat) ^ e := by
      apply mul_pos _ h2e
      exact_mod_cast hpos
    unfold roundQ
    rw [if_neg (ne_of_gt hqpos), if_pos hqpos]
    apply roundPos_dyadic_exact m e (by omega) (by omega) he
    calc (m : Rat) * (2 : Rat) ^ e = |(m : Rat) * (2 : Rat) ^ e| := (abs_of_pos hqpos).symm
    _ < (2 : Rat) ^ (128 : Nat) := hv
  · have hmneg : m < 0 := by omega
    have hqneg : (m : Rat) * (2 : Rat) ^ e < 0 := by
      apply mul_neg_of_neg_of_pos _ h2e
      exact_mod_cast hmneg
    unfold roundQ
    rw [if_neg (ne_of_lt hqneg), if_neg (by push_neg; exact le_of_lt hqneg)]
    have hflip : -((m : Rat) * (2 : Rat) ^ e) = ((-m : Int) : Rat) * (2 : Rat) ^ e := by
      push_cast
      ring
    rw [hflip]
    rw [roundPos_dyadic_exact (-m) e (by omega) (by omega) he (by
      calc ((-m : Int) : Rat) * (2 : Rat) ^ e = -((m : Rat) * (2 : Rat) ^ e) := by push_cast; ring
      _ = |(m : Rat) * (2 : Rat) ^ e| := (abs_of_neg hqneg).symm
      _ < (2 : Rat) ^ (128 : Nat) := hv)]
    show F32.finite (-(((-m : Int) : Rat) * (2 : Rat) ^ e)) = _
    congr 1
    push_cast
    ring

theorem roundQ_zero : roundQ 0 = F32.finite 0 := by
  unfold roundQ
  rw [if_pos rfl]

theorem F32.div_finite_of_ne (a b : Rat) (hb : b ≠ 0) :
    F32.div (F32.finite a) (F32.finite b) = roundQ (a / b) := by
  simp only [F32.div]
  rw [if_neg hb]

theorem F32.sub_finite (a b : Rat) :
    F32.sub (F32.finite a) (F32.finite b) = roundQ (a - b) := by
  simp only [F32.sub]

theorem F32.abs_finite (a : Rat) : (F32.finite a).abs = F32.finite |a| := rfl

theorem F32.gt_finite (a b : Rat) : F32.gt (F32.finite a) (F32.finite b) = decide (b < a) := rfl

theorem micronsToF32_val (v : Int) (h : v.natAbs < 16777216) :
    micronsToF32 ⟨v⟩ = roundQ ((v : Rat) / 1000) := by
  unfold micronsToF32 F32.ofInt
  rw [show (Microns.mk v).val = v from rfl]
  rw [roundQ_int_exact v h]
  rw [F32.div_finite_of_ne _ _ (by norm_num)]

theorem micronsToF32_half : micronsToF32 ⟨500⟩ = F32.finite (1 / 2) := by
  rw [micronsToF32_val 500 (by norm_num)]
  rw [show ((500 : Int) : Rat) / 1000 = (1 : Rat) / 2 by norm_num]
  apply roundQ_dyadic_exact _ 1 (-1)
  · rw [show ((-1 : Int)) = -((1 : Nat) : Int) from rfl, zpow_neg, zpow_natCast]
    norm_num
  · norm_num
  · norm_num
  · norm_num
  · rw [show |(1 : Rat) / 2| = (1 : Rat) / 2 by norm_num]
    norm_num

theorem slope_diag_one (a b : State) (hy : b.y.sub a.y = ⟨500⟩) (hx : b.x.sub a.x = ⟨500⟩) :
    (calcSlope a b).abs = F32.finite 1 := by
  unfold calcSlope
  rw [hy, hx]
  show (F32.div (micronsToF32 ⟨500⟩) (micronsToF32 ⟨500⟩)).abs = F32.finite 1
  rw [micronsToF32_half]
  rw [F32.div_finite_of_ne _ _ (by norm_num)]
  rw [show (1 : Rat) / 2 / ((1 : Rat) / 2) = ((1 : Int) : Rat) by norm_num]
  rw [roundQ_int_exact 1 (by norm_num)]
  rw [F32.abs_finite]
  norm_num

theorem slopeGate_wit4 : slopeGate [sW1, sW2, sW3] = true := by
  have h12 : (calcSlope sW1 sW2).abs = F32.finite 1 :=
    slope_diag_one sW1 sW2 (by decide) (by decide)
  have h23 : (calcSlope sW2 sW3).abs = F32.finite 1 :=
    slope_diag_one sW2 sW3 (by decide) (by decide)
  show slopeChain ((calcSlope sW1 sW2).abs) sW2 [sW3] = true
  rw [h12]
  show (if F32.gt ((F32.sub (F32.finite 1) ((calcSlope sW2 sW3).abs)).abs) f32Epsilon = true
        then false else slopeChain ((calcSlope sW2 sW3).abs) sW3 []) = true
  rw [h23]
  rw [F32.sub_finite]
  rw [show (1 : Rat) - 1 = 0 by norm_num]
  rw [roundQ_zero, F32.abs_finite]
  rw [show |(0 : Rat)| = 0 by norm_num]
  rw [show f32Epsilon = F32.finite (1 / 8388608) from rfl, F32.gt_finite]
  rw [decide_eq_false (by norm_num)]
  rfl

theorem microns_ne_val (a b : Microns) : a ≠ b ↔ a.val ≠ b.val := by
  constructor
  · intro h hv
    exact h (by cases a; cases b; cases hv; rfl)
  · intro h hc
    subst hc
    exact h rfl

theorem microns_move_iff (a b : Microns) (ha : CoordSmall a) (hb : CoordSmall b) :
    (Microns.lt Microns.ZERO ((a.sub b).abs) = true) ↔ a.val ≠ b.val := by
  obtain ⟨ha1, ha2⟩ := ha
  obtain ⟨hb1, hb2⟩ := hb
  have hsub : (a.sub b).val = a.val - b.val := by
    unfold Microns.sub i32Sat i32Min i32Max
    rw [if_neg (by omega), if_neg (by omega)]
  have habs : ((a.sub b).abs).val = ((a.val - b.val).natAbs : Int) := by
    unfold Microns.abs
    rw [hsub]
    rw [if_neg (by unfold i32Min; omega)]
  unfold Microns.lt
  rw [habs]
  show (decide ((Microns.ZERO).val < ((a.val - b.val).natAbs : Int))) = true ↔ _
  rw [decide_eq_true_eq]
  rw [show (Microns.ZERO).val = 0 from rfl]
  omega

/-- Claim C1 (amended): `update` sets each addressed axis of a linear move
to the explicit parameter value regardless of the model's relative-mode
flags (unaddressed axes carry over, `Home` zeroes all tracked axes, and
mode switches and raw commands leave the position unchanged); replacing
the two relative-mode flags by any other values yields the identical
position, i.e. update never adds the previous position. -/
theorem C1_update_ignores_relative_mode (c : Cursor) (line : GCodeLine)
    (h : c.parent.lines[c.idx]? = some line) :
    (∃ c', c.update = some c' ∧ c'.state = specUpdateState c.state line.command) ∧
    (∀ b1 b2 : Bool,
      (Cursor.update { c with parent := ⟨c.parent.lines, b1, b2⟩ }).map Cursor.state =
        some (specUpdateState c.state line.command)) := by
  constructor
  · exact ⟨_, update_eq c line h, rfl⟩
  · intro b1 b2
    have h2 : ({ c with parent := ⟨c.parent.lines, b1, b2⟩ } : Cursor).parent.lines[c.idx]? =
        some line := h
    rw [update_eq _ line h2]
    rfl

/-- Claim C1 witness: the amended theorem applied to the `mC1` cursor at
index 0 (a `G1 X5` line). -/
theorem C1_update_ignores_relative_mode_witness :
    ∃ c', Cursor.update ((Cursor.fromModel mC1).getD dummyCursor) = some c' ∧
      c'.state = specUpdateState ((Cursor.fromModel mC1).getD dummyCursor).state
        (g1 (some 5000) none none none none).command :=
  (C1_update_ignores_relative_mode _ _ (by decide)).1

/-- Claim C1 counterexample: `mC1` has `rel_xyz = true`, and stepping from
`G1 X5` onto `G1 X1` leaves X at the explicit 1 mm, not at the claimed
`previous + parameter` = 6 mm. -/
theorem C1_cex_relative_add_not_performed :
    mC1.rel_xyz = true ∧
    ((Cursor.fromModel mC1).bind Cursor.next |>.map fun r => r.2.state.x) =
      some ⟨1000⟩ ∧
    (⟨1000⟩ : Microns) ≠ claimRelAxis ⟨5000⟩ ⟨1000⟩ := by
  decide

/-- Claim C2 (amended): for positions whose X/Y/Z coordinates avoid
saturation, `is_extrusion` returns true iff the current E value is
positive — it never compares against the previous E — and at least one of
X, Y, Z differs from the previous position.  In particular a move whose E
decreases from a positive previous value still counts as extrusion. -/
theorem C2_is_extrusion_sign_test (curr prev : State)
    (hcx : CoordSmall curr.x) (hcy : CoordSmall curr.y) (hcz : CoordSmall curr.z)
    (hpx : CoordSmall prev.x) (hpy : CoordSmall prev.y) (hpz : CoordSmall prev.z) :
    isExtrusion curr prev = true ↔
      (0 < curr.e.val ∧ (curr.x ≠ prev.x ∨ curr.y ≠ prev.y ∨ curr.z ≠ prev.z)) := by
  unfold isExtrusion
  by_cases he : Microns.lt Microns.ZERO curr.e = true
  · rw [if_pos he]
    have heP : 0 < curr.e.val := by
      unfold Microns.lt Microns.ZERO at he
      simpa using he
    simp only [Bool.or_eq_true]
    rw [microns_move_iff _ _ hcx hpx, microns_move_iff _ _ hcy hpy,
      microns_move_iff _ _ hcz hpz]
    rw [microns_ne_val, microns_ne_val, microns_ne_val]
    constructor
    · intro h
      exact ⟨heP, by tauto⟩
    · intro h
      tauto
  · rw [if_neg he]
    constructor
    · intro h
      exact absurd h (by simp)
    · rintro ⟨he', -⟩
      refine absurd ?_ he
      unfold Microns.lt Microns.ZERO
      simpa using he'

/-- Claim C2 witness: the amended characterization applied to the
repository's own `is_extrusion_test` row in which E falls from 100 to 25
while X moves. -/
theorem C2_is_extrusion_sign_test_witness :
    isExtrusion ⟨⟨50000⟩, ⟨-1000⟩, ⟨3000⟩, ⟨25000⟩, ⟨900000⟩⟩
      ⟨⟨0⟩, ⟨-1000⟩, ⟨3000⟩, ⟨100000⟩, ⟨900000⟩⟩ = true :=
  (C2_is_extrusion_sign_test _ _ ⟨by decide, by decide⟩ ⟨by decide, by decide⟩
    ⟨by decide, by decide⟩ ⟨by decide, by decide⟩ ⟨by decide, by decide⟩
    ⟨by decide, by decide⟩).mpr (by decide)

/-- Claim C2 counterexample: a pair of positions where E does not increase
(25 ≤ 100) and X moves, yet `is_extrusion` returns true — the claim
demands false for every input in which E does not increase. -/
theorem C2_cex_E_decrease_still_true :
    isExtrusion ⟨⟨50000⟩, ⟨-1000⟩, ⟨3000⟩, ⟨25000⟩, ⟨900000⟩⟩
      ⟨⟨0⟩, ⟨-1000⟩, ⟨3000⟩, ⟨100000⟩, ⟨900000⟩⟩ = true ∧
    (25000 : Int) ≤ 100000 := by
  decide

/-- Claim C3: on the nine-line program of the repository's own
`shape_test`, the first `next_shape()` call returns `0..=0`, while the
test (and the partition property of the spec) expects `0..=1`; moreover
`shapes()` never terminates on this input — no fuel completes its loop —
so it returns no partition at all. -/
theorem C3_shape_test_not_partitioned :
    ((Cursor.fromModel mShape).bind fun c => (c.nextShape 9).map Prod.fst) =
      some (0, 0) ∧
    ((0 : Nat), (0 : Nat)) ≠ (0, 1) ∧
    ∀ fuel, (cShape.shapes fuel).map Prod.fst = none := by
  refine ⟨by decide, by decide, ?_⟩
  intro fuel
  have hreset : cShape.reset = some cShapeR := by decide
  simp only [Cursor.shapes, hreset]
  rw [shapesLoop_fixed cShapeR (0, 0) (by decide) (by decide) fuel []]
  rfl

/-- Claim C4: on the planar model `mC4` whose extrusion moves visit the
strictly arithmetic heights 0.2, 0.4, 0.6, 0.8 mm, `layer_height` returns
`(0, 0)` rather than the claimed `(0.2, 0.2)` (i.e. `(200, 200)` microns):
`is_planar` has already driven the cursor to the last line, so the height
collection loop never runs. -/
theorem C4_layer_height_degenerates :
    ((Cursor.fromModel mC4).bind fun c => c.layerHeight |>.map Prod.fst) =
      some (Microns.ZERO, Microns.ZERO) ∧
    (Microns.ZERO, Microns.ZERO) ≠ ((⟨200⟩ : Microns), (⟨200⟩ : Microns)) := by
  decide

/-- Claim C5 (amended): given the computed shape list, `pre_print` returns
the inclusive range `0..=(first shape start - 1)` (saturating at 0) when
the first shape is not a purge line; `0..=(second shape start - 1)` when
it is a purge line and a second shape exists; and it fails both when there
are no shapes and when the purge-classified first shape is the only
shape. -/
theorem C5_pre_print_result_by_cases (c : Cursor) (fuel : Nat)
    (shapeList : List (Nat × Nat)) (c1 : Cursor)
    (h : c.shapes fuel = some (shapeList, c1)) :
    (shapeList = [] →
      prePrint c fuel = some (Except.error "No preprint found", c1)) ∧
    (∀ first rest, shapeList = first :: rest →
      (isPurgeLine c1.parent first.1 fuel = some false →
        prePrint c fuel = some (Except.ok (0, first.1 - 1), c1)) ∧
      (isPurgeLine c1.parent first.1 fuel = some true → rest = [] →
        prePrint c fuel = some (Except.error "No preprint found", c1)) ∧
      (∀ second rest2, isPurgeLine c1.parent first.1 fuel = some true →
        rest = second :: rest2 →
        prePrint c fuel = some (Except.ok (0, second.1 - 1), c1))) := by
  constructor
  · intro hnil
    subst hnil
    simp only [prePrint, h]
  · intro first rest hcons
    subst hcons
    refine ⟨?_, ?_, ?_⟩
    · intro hp
      simp only [prePrint, h, hp]
      rfl
    · intro hp hrest
      subst hrest
      simp only [prePrint, h, hp]
      rfl
    · intro second rest2 hp hcons2
      subst hcons2
      simp only [prePrint, h, hp]
      rfl

/-- Claim C5 witness: on `mC5`, whose single shape is purge-classified,
`pre_print` takes the error branch of the amended theorem. -/
theorem C5_pre_print_result_by_cases_witness :
    prePrint cC5 10 = some (Except.error "No preprint found", cC5s) :=
  ((C5_pre_print_result_by_cases cC5 10 [(0, 1)] cC5s (by decide)).2
    (0, 1) [] rfl).2.1 (by decide) rfl

/-- Claim C5 counterexample: `mC5` has a nonempty shape list, yet
`pre_print` fails — the claim says it fails only when there are no shapes
at all. -/
theorem C5_cex_error_despite_shapes :
    ((Cursor.fromModel mC5).bind fun c => (c.shapes 10).map Prod.fst) =
      some [(0, 1)] ∧
    [((0 : Nat), (1 : Nat))] ≠ [] ∧
    ((Cursor.fromModel mC5).bind fun c => (prePrint c 10).map Prod.fst) =
      some (Except.error "No preprint found") := by
  decide

/-- Claim C6 (amended): for a shape starting at index 0, `is_purge_line`
walks the whole file; it returns true iff every recorded position (each
position reached from a state with positive E and nonzero X/Y/Z
displacement — all of the shape's points except the first move's
destination) stays out of the interior region (not both X > 2 mm and
Y > 2 mm), and the f32 slope gate over those positions passes; with two or
fewer recorded positions the slope gate passes vacuously. -/
theorem C6_is_purge_line_walk (m : GCodeModel) (fuel : Nat) (cur : Cursor)
    (hchild : childAt m 0 fuel = some cur)
    (ps : List State) (hwalk : walkPositions fuel cur cur.state = some ps) :
    isPurgeLine m 0 fuel = some (marginAll ps && slopeGate ps) ∧
    (marginAll ps = true ↔
      ∀ p ∈ ps, ¬(purgeMargin.val < p.x.val ∧ purgeMargin.val < p.y.val)) ∧
    (ps.length ≤ 2 → slopeGate ps = true) := by
  have hidx : cur.idx = 0 := by
    rw [childAt_zero] at hchild
    exact (fromModel_preserves m cur hchild).1
  refine ⟨?_, ?_, ?_⟩
  · simp only [isPurgeLine, hchild, atFirst_at_idx_zero cur hidx,
      purgeWalkLoop_eq fuel cur cur.state [] ps hwalk]
    cases hm : marginAll ps <;> simp [hm]
  · unfold marginAll Microns.lt
    rw [List.all_eq_true]
    constructor
    · intro h p hp
      have := h p hp
      simp only [Bool.not_eq_true', Bool.and_eq_false_iff, decide_eq_false_iff_not] at this
      tauto
    · intro h p hp
      have := h p hp
      simp only [Bool.not_eq_true', Bool.and_eq_false_iff, decide_eq_false_iff_not]
      tauto
  · intro hlen
    match ps with
    | [] => rfl
    | [p] => rfl
    | [p, q] => rfl
    | p :: q :: r :: rest => simp at hlen

/-- Claim C6 witness: the amended theorem applied to the all-inside-margin
collinear shapes `mC6wit` (three moves, slope gate skipped) and `mC6wit4`
(four moves, f32 slope gate exercised); both are classified as purge
lines. -/
theorem C6_is_purge_line_walk_witness :
    isPurgeLine mC6wit 0 10 = some true ∧ isPurgeLine mC6wit4 0 10 = some true := by
  constructor
  · have h := (C6_is_purge_line_walk mC6wit 10 cC6wit (by decide) psC6wit (by decide)).1
    rw [h]
    decide
  · have h := (C6_is_purge_line_walk mC6wit4 10 cC6wit4 (by decide) psC6wit4 (by decide)).1
    rw [h]
    rw [show psC6wit4 = [sW1, sW2, sW3] from by decide]
    rw [show marginAll [sW1, sW2, sW3] = true from by decide]
    rw [slopeGate_wit4]
    rfl

/-- Claim C6 counterexample: in `mC6cex` the first point of the collinear
first shape sits at (3 mm, 3 mm) — both coordinates beyond the 2 mm
margin — yet `is_purge_line` still returns true, because the walk never
checks the first move's destination; the claim says moving any point of
the shape outside the margin box makes it return false. -/
theorem C6_cex_first_point_never_checked :
    (purgeMargin.val < 3000 ∧ purgeMargin.val < 3000) ∧
    isPurgeLine mC6cex 0 10 = some true := by
  decide

/-- Claim C7: `next()` at the last line index returns the `EndOfFile`
error with the cursor — index and position — unchanged, and `prev()` at
index 0 returns the `StartOfFile` error with the cursor unchanged; neither
touches the line list (no panic is possible on these paths). -/
theorem C7_boundary_errors_leave_cursor (c : Cursor)
    (hlast : c.idx = c.parent.lines.length - 1) :
    c.next = some (Except.error CursorError.EndOfFile, c) ∧
    (∀ c0 : Cursor, c0.idx = 0 →
      c0.prevMove = some (Except.error CursorError.StartOfFile, c0)) := by
  constructor
  · unfold Cursor.next
    rw [if_pos hlast]
  · intro c0 h0
    unfold Cursor.prevMove
    rw [if_pos h0]

/-- Claim C7 witness: the boundary theorem applied to the two-line model
`mC7`, at its last cursor and at its index-0 cursor. -/
theorem C7_boundary_errors_leave_cursor_witness :
    cC7last.next = some (Except.error CursorError.EndOfFile, cC7last) ∧
    cC7.prevMove = some (Except.error CursorError.StartOfFile, cC7) := by
  have h := C7_boundary_errors_leave_cursor cC7last (by decide)
  exact ⟨h.1, h.2 cC7 (by decide)⟩

theorem next_ok (c : Cursor) (h : c.WF) (hne : c.idx ≠ c.parent.lines.length - 1) :
    ∃ c', c.next = some (Except.ok c'.state, c') ∧ c'.idx = c.idx + 1 ∧
      c'.parent = c.parent ∧ c'.WF := by
  unfold Cursor.next
  rw [if_neg hne]
  have hwf2 : ({ c with idx := c.idx + 1, prev := c.state } : Cursor).WF := by
    show c.idx + 1 < c.parent.lines.length
    unfold Cursor.WF at h
    omega
  obtain ⟨c', hc', hidx, hparent, _, hwf'⟩ := update_of_wf _ hwf2
  rw [hc']
  exact ⟨c', rfl, hidx, hparent, hwf'⟩

theorem prevMove_ok (c : Cursor) (h : c.WF) (h0 : c.idx ≠ 0) :
    ∃ c', c.prevMove = some (Except.ok c'.currCommand, c') ∧ c'.idx = c.idx - 1 ∧
      c'.parent = c.parent ∧ c'.WF := by
  unfold Cursor.prevMove
  rw [if_neg h0]
  have hwf2 : ({ c with idx := c.idx - 1, prev := c.state } : Cursor).WF := by
    show c.idx - 1 < c.parent.lines.length
    unfold Cursor.WF at h
    omega
  obtain ⟨c', hc', hidx, hparent, _, hwf'⟩ := update_of_wf _ hwf2
  rw [hc']
  exact ⟨c', rfl, hidx, hparent, hwf'⟩

theorem reset_wf (c : Cursor) (h : c.WF) :
    ∃ c', c.reset = some c' ∧ c'.WF ∧ c'.parent = c.parent := by
  unfold Cursor.reset
  have hwf0 : ({ c with idx := 0 } : Cursor).WF := by
    show 0 < c.parent.lines.length
    unfold Cursor.WF at h
    omega
  obtain ⟨c', hu, _, hparent, _, hwf'⟩ := update_of_wf _ hwf0
  rw [hu]
  exact ⟨c', rfl, hwf', hparent⟩

theorem nextShapeLoop_total : ∀ (fuel : Nat) (b : Bool) (pl : State) (endIdx : Nat)
    (c : Cursor), c.WF → c.parent.lines.length - c.idx ≤ fuel →
    ∃ r c', nextShapeLoop fuel b pl endIdx c = some (r, c') ∧ c'.WF ∧
      c'.parent = c.parent := by
  intro fuel
  induction fuel with
  | zero =>
    intro b pl endIdx c hwf hfuel
    exfalso
    unfold Cursor.WF at hwf
    omega
  | succ n ih =>
    intro b pl endIdx c hwf hfuel
    unfold nextShapeLoop
    by_cases hcond : (b != isExtrusion c.state pl) = true
    · rw [if_pos hcond]
      by_cases hlast : c.idx = c.parent.lines.length - 1
      · have hnext : c.next = some (Except.error CursorError.EndOfFile, c) := by
          unfold Cursor.next
          rw [if_pos hlast]
        rw [hnext]
        exact ⟨endIdx, c, rfl, hwf, rfl⟩
      · obtain ⟨c', hnext, hidx, hparent, hwf'⟩ := next_ok c hwf hlast
        rw [hnext]
        obtain ⟨r, c'', h1, h2, h3⟩ := ih b c'.state c'.idx c' hwf' (by
          rw [hparent, hidx]
          unfold Cursor.WF at hwf
          omega)
        exact ⟨r, c'', h1, h2, by rw [h3, hparent]⟩
    · rw [if_neg hcond]
      exact ⟨endIdx, c, rfl, hwf, rfl⟩

theorem nextShape_total (c : Cursor) (h : c.WF) :
    ∃ r c', c.nextShape c.parent.lines.length = some (r, c') ∧ c'.WF ∧
      c'.parent = c.parent := by
  simp only [Cursor.nextShape]
  by_cases hlast : c.idx = c.parent.lines.length - 1
  · rw [if_pos hlast]
    exact ⟨_, c, rfl, h, rfl⟩
  · rw [if_neg hlast]
    obtain ⟨r1, c1, hloop, hwf1, hp1⟩ := nextShapeLoop_total c.parent.lines.length
      (isExtrusion c.state c.prev) c.state c.idx c h (by unfold Cursor.WF at h; omega)
    simp only [hloop]
    by_cases hlast1 : c1.idx ≠ c1.parent.lines.length - 1
    · rw [if_pos hlast1]
      obtain ⟨r2, c2, hpm, hwf2, hp2⟩ := prevMove_wf c1 hwf1
      simp only [hpm]
      exact ⟨_, c2, rfl, hwf2, by rw [hp2, hp1]⟩
    · rw [if_neg hlast1]
      exact ⟨_, c1, rfl, hwf1, hp1⟩

theorem atFirstLoop_total : ∀ (fuel : Nat) (curr : State) (c : Cursor),
    c.WF → c.idx < fuel → ∃ b, atFirstLoop fuel curr c = some b := by
  intro fuel
  induction fuel with
  | zero =>
    intro curr c hwf hfuel
    exact absurd hfuel (Nat.not_lt_zero _)
  | succ n ih =>
    intro curr c hwf hfuel
    unfold atFirstLoop
    by_cases h0 : c.idx = 0
    · have hpm : c.prevMove = some (Except.error CursorError.StartOfFile, c) := by
        unfold Cursor.prevMove
        rw [if_pos h0]
      simp only [hpm]
      exact ⟨true, rfl⟩
    · obtain ⟨c', hpm, hidx, hparent, hwf'⟩ := prevMove_ok c hwf h0
      simp only [hpm]
      by_cases hext : isExtrusion curr c'.state = true
      · rw [if_pos hext]
        exact ⟨false, rfl⟩
      · rw [if_neg hext]
        exact ih curr c' hwf' (by omega)

theorem atFirstExtrusion_total (c : Cursor) (h : c.WF) :
    ∃ b, c.atFirstExtrusion = some b := by
  unfold Cursor.atFirstExtrusion
  exact atFirstLoop_total (c.idx + 1) c.state c h (by omega)

theorem isPlanarLoop_total : ∀ (fuel : Nat) (c : Cursor) (init : State),
    c.WF → c.parent.lines.length - c.idx < fuel →
    ∃ b c', isPlanarLoop fuel c init = some (b, c') ∧ c'.WF ∧
      c'.parent = c.parent := by
  intro fuel
  induction fuel with
  | zero =>
    intro c init hwf hfuel
    exact absurd hfuel (Nat.not_lt_zero _)
  | succ n ih =>
    intro c init hwf hfuel
    unfold isPlanarLoop
    by_cases hlast : c.idx = c.parent.lines.length - 1
    · have hnext : c.next = some (Except.error CursorError.EndOfFile, c) := by
        unfold Cursor.next
        rw [if_pos hlast]
      simp only [hnext]
      exact ⟨true, c, rfl, hwf, rfl⟩
    · obtain ⟨c', hnext, hidx, hparent, hwf'⟩ := next_ok c hwf hlast
      simp only [hnext]
      by_cases hnp : nonplanarExtrusion c' init = true
      · rw [if_pos hnp]
        exact ⟨false, c', rfl, hwf', hparent⟩
      · rw [if_neg hnp]
        obtain ⟨b, c'', h1, h2, h3⟩ := ih c' c'.state hwf' (by
          rw [hparent, hidx]
          unfold Cursor.WF at hwf
          omega)
        exact ⟨b, c'', h1, h2, by rw [h3, hparent]⟩

theorem isPlanar_total (c : Cursor) (h : c.WF) :
    ∃ b c', c.isPlanar = some (b, c') ∧ c'.WF ∧ c'.parent = c.parent := by
  unfold Cursor.isPlanar
  exact isPlanarLoop_total (c.parent.lines.length + 1) c c.state h (by omega)

theorem layerHeightLoop_total : ∀ (fuel : Nat) (c : Cursor) (init : State)
    (acc : List Microns), c.WF → c.parent.lines.length - c.idx < fuel →
    ∃ r c', layerHeightLoop fuel c init acc = some (r, c') := by
  intro fuel
  induction fuel with
  | zero =>
    intro c init acc hwf hfuel
    exact absurd hfuel (Nat.not_lt_zero _)
  | succ n ih =>
    intro c init acc hwf hfuel
    unfold layerHeightLoop
    by_cases hlast : c.idx = c.parent.lines.length - 1
    · have hnext : c.next = some (Except.error CursorError.EndOfFile, c) := by
        unfold Cursor.next
        rw [if_pos hlast]
      simp only [hnext]
      exact ⟨acc.reverse, c, rfl⟩
    · obtain ⟨c', hnext, hidx, hparent, hwf'⟩ := next_ok c hwf hlast
      simp only [hnext]
      exact ih c' c'.state _ hwf' (by
        rw [hparent, hidx]
        unfold Cursor.WF at hwf
        omega)

theorem layerHeight_total (c : Cursor) (h : c.WF) :
    (c.layerHeight).isSome = true := by
  obtain ⟨b, c1, hp, hwf1, hpar1⟩ := isPlanar_total c h
  cases b with
  | false =>
    simp only [Cursor.layerHeight, hp]
    rfl
  | true =>
    obtain ⟨collected, c2, hloop⟩ :=
      layerHeightLoop_total (c1.parent.lines.length + 1) c1 c.state [] hwf1 (by omega)
    simp only [Cursor.layerHeight, hp, hloop]
    cases hsort : sortAsc (dedupConsec collected) with
    | nil => rfl
    | cons h0 t =>
      cases t with
      | nil => rfl
      | cons h1 t2 =>
        cases t2 with
        | nil => rfl
        | cons h2 t3 =>
          cases t3 with
          | nil => rfl
          | cons h3 t4 =>
            cases hu : layerUniform h2 (h3 :: t4) (h2.sub h1) <;> simp [hu]

theorem purgeWalkLoop_total : ∀ (fuel : Nat) (c : Cursor) (init : State)
    (acc : List State), c.WF → c.parent.lines.length - c.idx < fuel →
    ∃ r, purgeWalkLoop fuel c init acc = some r := by
  intro fuel
  induction fuel with
  | zero =>
    intro c init acc hwf hfuel
    exact absurd hfuel (Nat.not_lt_zero _)
  | succ n ih =>
    intro c init acc hwf hfuel
    unfold purgeWalkLoop
    by_cases hlast : c.idx = c.parent.lines.length - 1
    · have hnext : c.next = some (Except.error CursorError.EndOfFile, c) := by
        unfold Cursor.next
        rw [if_pos hlast]
      simp only [hnext]
      exact ⟨_, rfl⟩
    · obtain ⟨c', hnext, hidx, hparent, hwf'⟩ := next_ok c hwf hlast
      simp only [hnext]
      have hrec : c'.parent.lines.length - c'.idx < n := by
        rw [hparent, hidx]
        unfold Cursor.WF at hwf
        omega
      by_cases hext : isExtrusion init c'.state = true
      · rw [if_pos hext]
        by_cases hbad :
            (Microns.lt purgeMargin c'.state.x && Microns.lt purgeMargin c'.state.y) = true
        · rw [if_pos hbad]
          exact ⟨_, rfl⟩
        · rw [if_neg hbad]
          exact ih c' c'.state _ hwf' hrec
      · rw [if_neg hext]
        exact ih c' c'.state _ hwf' hrec

theorem isPurgeLine_total (m : GCodeModel) (start : Nat) (hm : m.lines ≠ [])
    (hstart : start < m.lines.length) :
    ∃ b, isPurgeLine m start (m.lines.length + 1) = some b := by
  obtain ⟨c0, hc0, hidx0, hp0, hwf0⟩ := fromModel_spec m hm
  obtain ⟨cur, hloop, hidxc, hpc, hwfc⟩ :=
    childAtLoop_reaches start (m.lines.length + 1) c0 hwf0 (by omega)
      (by rw [hp0]; exact hstart) (by omega)
  have hchild : childAt m start (m.lines.length + 1) = some cur := by
    simp only [childAt, hc0]
    exact hloop
  obtain ⟨bf, hbf⟩ := atFirstExtrusion_total cur hwfc
  cases bf with
  | false =>
    simp only [isPurgeLine, hchild, hbf]
    exact ⟨false, rfl⟩
  | true =>
    obtain ⟨r, hr⟩ := purgeWalkLoop_total (m.lines.length + 1) cur cur.state []
      (by exact hwfc) (by rw [hpc, hp0]; omega)
    simp only [isPurgeLine, hchild, hbf, hr]
    cases r with
    | earlyFalse => exact ⟨false, rfl⟩
    | positions ps => exact ⟨slopeGate ps, rfl⟩

/-- Claim C8 (amended): for every nonempty model, cursor construction
succeeds and yields a well-formed cursor, and every bounded analyzer
operation is total on well-formed cursors — `update`, `next`, `prev` and
`reset` return a value or a typed error and keep the index in bounds;
`next_shape` (at the fuel `shapes` gives it), `at_first_extrusion`,
`is_planar` and `layer_height` return a value; `child_at` returns a
cursor at any in-file target index; and `is_purge_line` returns a
boolean for any in-file start index.  No out-of-bounds access occurs in
any of them.  The claim's full universal statement is false on two
counts, however: construction on the empty model is an out-of-bounds
panic (see the counterexample), and the unbounded loops — `shapes` (hence
`pre_print`/`post_print`) and `child_at` at an index at or past the file
length — can fail to return at all on nonempty models, as proved under
claims C3 and C9. -/
theorem C8_no_panic_on_nonempty_models (m : GCodeModel) (hm : m.lines ≠ []) :
    (∃ c, Cursor.fromModel m = some c ∧ c.WF ∧ c.parent = m) ∧
    (∀ c : Cursor, c.WF →
      (∃ c', c.update = some c' ∧ c'.WF) ∧
      (∃ r c', c.next = some (r, c') ∧ c'.WF) ∧
      (∃ r c', c.prevMove = some (r, c') ∧ c'.WF) ∧
      (∃ c', c.reset = some c' ∧ c'.WF) ∧
      (∃ r c', c.nextShape c.parent.lines.length = some (r, c') ∧ c'.WF) ∧
      (∃ b, c.atFirstExtrusion = some b) ∧
      (∃ b c', c.isPlanar = some (b, c') ∧ c'.WF) ∧
      (c.layerHeight).isSome = true) ∧
    (∀ target, target < m.lines.length →
      (childAt m target m.lines.length).isSome = true) ∧
    (∀ start, start < m.lines.length →
      ∃ b, isPurgeLine m start (m.lines.length + 1) = some b) := by
  refine ⟨?_, ?_, ?_, ?_⟩
  · obtain ⟨c, hc, _, hp, hwf⟩ := fromModel_spec m hm
    exact ⟨c, hc, hwf, hp⟩
  · intro c hwf
    refine ⟨?_, ?_, ?_, ?_, ?_, ?_, ?_, ?_⟩
    · obtain ⟨c', hu, _, _, _, hwf'⟩ := update_of_wf c hwf
      exact ⟨c', hu, hwf'⟩
    · obtain ⟨r, c', hn, hwf', _⟩ := next_wf c hwf
      exact ⟨r, c', hn, hwf'⟩
    · obtain ⟨r, c', hp, hwf', _⟩ := prevMove_wf c hwf
      exact ⟨r, c', hp, hwf'⟩
    · obtain ⟨c', hr, hwf', _⟩ := reset_wf c hwf
      exact ⟨c', hr, hwf'⟩
    · obtain ⟨r, c', hns, hwf', _⟩ := nextShape_total c hwf
      exact ⟨r, c', hns, hwf'⟩
    · exact atFirstExtrusion_total c hwf
    · obtain ⟨b, c', hip, hwf', _⟩ := isPlanar_total c hwf
      exact ⟨b, c', hip, hwf'⟩
    · exact layerHeight_total c hwf
  · intro target ht
    obtain ⟨c0, hc0, hidx0, hp0, hwf0⟩ := fromModel_spec m hm
    obtain ⟨c', hloop, _, _, _⟩ := childAtLoop_reaches target m.lines.length c0 hwf0
      (by omega) (by rw [hp0]; exact ht) (by omega)
    simp only [childAt, hc0, hloop]
    rfl
  · intro start hstart
    exact isPurgeLine_total m start hm hstart

/-- Claim C8 witness: the amended theorem applied to the one-line model
`mC9`. -/
theorem C8_no_panic_on_nonempty_models_witness :
    ∃ c, Cursor.fromModel mC9 = some c ∧ c.WF ∧ c.parent = mC9 :=
  (C8_no_panic_on_nonempty_models mC9 (by decide)).1

/-- Claim C8 counterexample: constructing a cursor from the empty model
indexes `lines[0]` out of bounds — a panic, embedded as `none` — so the
claim's "including the empty model, ... never panics" is false. -/
theorem C8_cex_empty_model_panics :
    Cursor.fromModel ⟨[], false, true⟩ = none := by
  decide

/-- Claim C9 (amended): for every nonempty model and every target index
within the file, `child_at` terminates — fuel equal to the target index
suffices — and returns a cursor positioned at that index.  (For an index
at or past the file length the loop never exits; see the
counterexample.) -/
theorem C9_child_at_reaches_valid_index (m : GCodeModel) (target : Nat)
    (hm : m.lines ≠ []) (htarget : target < m.lines.length) :
    ∃ fuel c', childAt m target fuel = some c' ∧ c'.idx = target ∧ c'.parent = m := by
  obtain ⟨c0, hc0, hidx0, hp0, hwf0⟩ := fromModel_spec m hm
  obtain ⟨c', hloop, hidx', hp', _⟩ :=
    childAtLoop_reaches target target c0 hwf0 (by omega)
      (by rw [hp0]; exact htarget) (by omega)
  refine ⟨target, c', ?_, hidx', by rw [hp', hp0]⟩
  unfold childAt
  rw [hc0]
  exact hloop

/-- Claim C9 witness: `child_at(5)` on the nine-line model `mShape`
terminates at index 5. -/
theorem C9_child_at_reaches_valid_index_witness :
    ∃ fuel c', childAt mShape 5 fuel = some c' ∧ c'.idx = 5 ∧ c'.parent = mShape :=
  C9_child_at_reaches_valid_index mShape 5 (by decide) (by decide)

/-- Claim C9 counterexample: on the one-line model `mC9`, `child_at(1)`
loops forever — `next()` fails at the last line without moving the index,
so the `while child.idx < idx` loop never exits and no amount of fuel
completes it. -/
theorem C9_cex_child_at_past_end_diverges :
    ¬ ChildAtTerminates mC9 1 := by
  rintro ⟨fuel, hf⟩
  have hc : Cursor.fromModel mC9 = some cC9 := by decide
  have hnone : childAt mC9 1 fuel = none := by
    unfold childAt
    rw [hc]
    exact childAtLoop_fixed cC9 1 (by decide) (by decide) fuel
  rw [hnone] at hf
  cases hf

theorem tryFrom_inf_pos : micronsTryFrom (F32.inf false) = Except.ok ⟨i32Max⟩ := by
  unfold micronsTryFrom
  rw [show F32.isNaN (F32.inf false) = false from rfl]
  simp only [Bool.false_eq_true, if_false]
  have hmul : F32.mul (F32.inf false) (F32.finite 1000) = F32.inf false := by
    simp only [F32.mul]
    rw [if_neg (by norm_num)]
    rw [decide_eq_false (by norm_num : ¬((1000 : Rat) < 0))]
    rfl
  rw [hmul]
  rfl

theorem tryFrom_inf_neg : micronsTryFrom (F32.inf true) = Except.ok ⟨i32Min⟩ := by
  unfold micronsTryFrom
  rw [show F32.isNaN (F32.inf true) = false from rfl]
  simp only [Bool.false_eq_true, if_false]
  have hmul : F32.mul (F32.inf true) (F32.finite 1000) = F32.inf true := by
    simp only [F32.mul]
    rw [if_neg (by norm_num)]
    rw [decide_eq_false (by norm_num : ¬((1000 : Rat) < 0))]
    rfl
  rw [hmul]
  rfl

/-- Claim C10 (amended): `Microns::try_from` errs exactly on NaN; every
non-NaN input (infinities included) succeeds without panicking; the value
is the f32 product `f * 1000.0` truncated toward zero and saturated to
the `i32` range by the `as i32` cast — in particular both infinities
saturate to the `i32` bounds, and for integral inputs of magnitude at
most 16777 the result is exactly 1000 times the input. -/
theorem C10_try_from_nan_and_saturation :
    (∀ f : F32, micronsTryFrom f = Except.error "NaN" ↔ f = F32.nan) ∧
    (∀ f : F32, f ≠ F32.nan → ∃ mo, micronsTryFrom f = Except.ok mo) ∧
    micronsTryFrom (F32.inf false) = Except.ok ⟨i32Max⟩ ∧
    micronsTryFrom (F32.inf true) = Except.ok ⟨i32Min⟩ ∧
    (∀ k : Int, k.natAbs ≤ 16777 → micronsTryFrom (F32.ofInt k) = Except.ok ⟨1000 * k⟩) := by
  refine ⟨?_, ?_, tryFrom_inf_pos, tryFrom_inf_neg, tryFrom_ofInt_exact⟩
  · intro f
    cases f <;> simp [micronsTryFrom, F32.isNaN]
  · intro f hf
    cases f with
    | finite q => exact ⟨_, rfl⟩
    | inf s => exact ⟨_, rfl⟩
    | nan => exact absurd rfl hf

/-- Claim C10 witness: the amended theorem instantiated at the integral
input 7 (giving exactly 7000 microns) and at the non-NaN input 1/2. -/
theorem C10_try_from_nan_and_saturation_witness :
    micronsTryFrom (F32.ofInt 7) = Except.ok ⟨7000⟩ ∧
    (∃ mo, micronsTryFrom (F32.finite (1 / 2)) = Except.ok mo) := by
  constructor
  · have h := C10_try_from_nan_and_saturation.2.2.2.2 7 (by norm_num)
    rw [h]
    rfl
  · exact C10_try_from_nan_and_saturation.2.1 (F32.finite (1 / 2)) (by
      intro hc
      cases hc)

/-- Claim C10 counterexample: the value 4194304.0 is finite and not NaN,
so conversion succeeds, but `(4194304.0 * 1000.0).trunc() as i32`
saturates at `i32::MAX` = 2147483647, which is not the claimed value
multiplied by 1000 (4194304000). -/
theorem C10_cex_large_value_saturates :
    micronsTryFrom (F32.ofInt 4194304) = Except.ok ⟨2147483647⟩ ∧
    (2147483647 : Int) ≠ 4194304 * 1000 := by
  constructor
  · have h1 : F32.ofInt 4194304 = F32.finite ((4194304 : Int) : Rat) :=
      roundQ_int_exact 4194304 (by norm_num)
    unfold micronsTryFrom
    rw [h1]
    rw [show F32.isNaN (F32.finite ((4194304 : Int) : Rat)) = false from rfl]
    simp only [Bool.false_eq_true, if_false]
    have hmul : F32.mul (F32.finite ((4194304 : Int) : Rat)) (F32.finite 1000) =
        F32.finite ((4194304000 : Int) : Rat) := by
      simp only [F32.mul]
      rw [show ((4194304 : Int) : Rat) * 1000 = ((4194304000 : Int) : Rat) by
        push_cast; norm_num]
      apply roundQ_dyadic_exact _ 125 25
      · rw [show ((25 : Int)) = ((25 : Nat) : Int) from rfl, zpow_natCast]
        push_cast
        norm_num
      · norm_num
      · norm_num
      · norm_num
      · rw [show |((4194304000 : Int) : Rat)| = ((4194304000 : Int) : Rat) by
          rw [abs_of_pos]; push_cast; norm_num]
        push_cast
        norm_num
    rw [hmul]
    have htr : F32.trunc (F32.finite ((4194304000 : Int) : Rat)) =
        F32.finite ((4194304000 : Int) : Rat) := by
      show F32.finite ((ratTrunc ((4194304000 : Int) : Rat) : Int) : Rat) = _
      rw [ratTrunc_int]
    rw [htr]
    have hcast : F32.toI32 (F32.finite ((4194304000 : Int) : Rat)) = 2147483647 := by
      show i32Sat (ratTrunc ((4194304000 : Int) : Rat)) = 2147483647
      rw [ratTrunc_int]
      unfold i32Sat i32Min i32Max
      norm_num
    rw [hcast]
  · norm_num
